import Mathlib

/-!
# Net buffer (`netbuffer.c`) and ring buffer (`kfifo.c`, `kfifo.h`): shallow embedding

The ring buffer of `kfifo.c` is embedded by one function per C function, further down.
The flow-controlled staging buffer of `netbuffer.c` is embedded as follows.

* The global `_netbuf` is the record `net_buffer`; the storage region and the
  caller buffers are memories `Nat → Byte` addressed by byte offset, so that
  `rt_memcpy` is a total function that copies exactly the cells the C call
  names (offsets at or beyond `size` lie past the allocated block, and
  `copy_in_in_block` tells whether the worker's copy stays inside it).
* `rt_size_t` / `rt_uint32_t` arithmetic is arithmetic modulo `WORD`.
* Semaphores are counters; `rt_sem_take` blocks on a zero counter.
* The worker thread, the reader and the callers of the control API are
  interleaved by the labelled step function `step`; every step is a group of
  consecutive statements of one task, named after the source lines it covers.
-/

namespace NetBuf

/-! ## Machine words, bytes and memory -/

/-- Modelled from the spec: the typedefs `rt_size_t` and `rt_uint32_t` live in
`rtthread.h`, which is not among the sources; they are taken as unsigned
32-bit words, so arithmetic on them is arithmetic modulo `WORD`. -/
abbrev WORD : Nat := 4294967296

/-- Addition of two unsigned words. -/
def uadd (a b : Nat) : Nat := (a + b) % WORD

/-- Subtraction of two unsigned words (wraps below zero). -/
def usub (a b : Nat) : Nat := (a + (WORD - b % WORD)) % WORD

/-- Multiplication of two unsigned words. -/
def umul (a b : Nat) : Nat := (a * b) % WORD

/-- Conversion of a C `int` to an unsigned word, as in `return size;` of `fd_fetch`. -/
def int_to_word (i : Int) : Nat := (i % (WORD : Int)).toNat

/-- The contents of a byte; `rt_memcpy` moves bytes without inspecting them. -/
abbrev Byte := Nat

/-- A block of memory addressed by byte offset from its base pointer. -/
abbrev Mem := Nat → Byte

/-- The call `rt_memcpy(dst + d, src + s, n)`. -/
def rt_memcpy (dst : Mem) (d : Nat) (src : Mem) (s : Nat) (n : Nat) : Mem :=
  fun a => if d ≤ a ∧ a < d + n then src (s + (a - d)) else dst a

/-- The first `n` bytes of a block, as a list. -/
def bytes (m : Mem) (n : Nat) : List Byte := (List.range n).map m

/-! ## Status codes and the shared record -/

@[reducible] def NETBUF_STAT_STOPPED : Nat := 0
@[reducible] def NETBUF_STAT_BUFFERING : Nat := 1
@[reducible] def NETBUF_STAT_SUSPEND : Nat := 2
@[reducible] def NETBUF_STAT_STOPPING : Nat := 3

@[reducible] def NETBUF_BLOCK_SIZE : Nat := 1024

/-- The record `struct net_buffer`; the two semaphores are their counters. -/
structure net_buffer where
  read_index : Nat
  save_index : Nat
  buffer_data : Mem
  data_length : Nat
  size : Nat
  ready_wm : Nat
  resume_wm : Nat
  is_wait_ready : Bool
  wait_ready : Nat
  wait_resume : Nat
  stat : Nat

/-- The record `struct net_buffer_job`; the two function pointers are opaque
identifiers, the data a `fetch` delivers is supplied by the environment. -/
structure net_buffer_job where
  fetch : Nat
  close : Nat
  parameter : Nat
deriving DecidableEq, Repr

/-- Modelled from the spec: the message queue `rt_mq_create("n_job", .., 4, ..)`
is a bounded, order-preserving channel with 4 slots; `rt_mq_send` on a full
queue fails and enqueues nothing. -/
@[reducible] def NETBUF_MQ_SLOTS : Nat := 4

/-- The call `rt_mq_send(_netbuf_mq, &job, sizeof job)`. -/
def rt_mq_send (mq : List net_buffer_job) (job : net_buffer_job) : List net_buffer_job :=
  if mq.length < NETBUF_MQ_SLOTS then mq ++ [job] else mq

/-! ## `net_buf_init` -/

/-- The fields set by `net_buf_init(size)`; `mem` is the content of the block
returned by `rt_malloc`. -/
def net_buf_init (size : Nat) (mem : Mem) : net_buffer :=
  { read_index := 0
    save_index := 0
    size := size
    buffer_data := mem
    data_length := 0
    ready_wm := umul size 90 / 100
    resume_wm := umul size 80 / 100
    stat := NETBUF_STAT_STOPPED
    wait_ready := 0
    wait_resume := 0
    is_wait_ready := false }

/-! ## `net_buf_read` -/

/-- Line 53: the test that sends the reader to wait on `wait_ready`. -/
def net_buf_read_wait (nb : net_buffer) : Bool :=
  nb.data_length == 0 &&
    (nb.stat == NETBUF_STAT_BUFFERING || nb.stat == NETBUF_STAT_SUSPEND)

/-- Lines 80-94: the copy out of the storage region of `length` bytes (already
clamped), with the update of `read_index`. -/
def net_buf_read_copy (nb : net_buffer) (buffer : Mem) (length : Nat) : Mem × net_buffer :=
  if usub nb.size nb.read_index > length then
    (rt_memcpy buffer 0 nb.buffer_data nb.read_index length,
     { nb with read_index := uadd nb.read_index length })
  else
    let first := usub nb.size nb.read_index
    let b1 := rt_memcpy buffer 0 nb.buffer_data nb.read_index first
    let b2 := rt_memcpy b1 first nb.buffer_data 0 (usub length first)
    (b2, { nb with read_index := usub length first })

/-- Lines 97-113: the critical section that lowers `data_length` and resumes a
suspended worker. -/
def net_buf_read_update (nb : net_buffer) (length : Nat) : net_buffer :=
  let nb1 := { nb with data_length := usub nb.data_length length }
  if nb1.stat == NETBUF_STAT_SUSPEND && decide (nb1.data_length < nb1.resume_wm) then
    { nb1 with stat := NETBUF_STAT_BUFFERING, wait_resume := nb1.wait_resume + 1 }
  else nb1

/-- Lines 68-117: the part of `net_buf_read` after the wait, run without
interruption. Returns the count, the caller's buffer and the new record. -/
def net_buf_read_body (nb : net_buffer) (buffer : Mem) (length : Nat) : Nat × Mem × net_buffer :=
  let data_length := nb.data_length
  let length := if length > data_length then data_length else length
  if data_length > 0 then
    let r := net_buf_read_copy nb buffer length
    (length, r.1, net_buf_read_update r.2 length)
  else (length, buffer, nb)

/-- What a call of `net_buf_read` comes to when no other task runs meanwhile. -/
inductive ReadOutcome where
  | blocked (nb : net_buffer)
  | returned (n : Nat) (buffer : Mem) (nb : net_buffer)

/-- The whole of `net_buf_read`, run without interruption; `sem_ok` is whether
`rt_sem_take` reports `RT_EOK`. -/
def net_buf_read (nb : net_buffer) (buffer : Mem) (length : Nat) (sem_ok : Bool) : ReadOutcome :=
  if net_buf_read_wait nb then
    let nb1 := { nb with is_wait_ready := true }
    if sem_ok then
      if nb1.wait_ready = 0 then .blocked nb1
      else
        let nb2 := { nb1 with wait_ready := nb1.wait_ready - 1 }
        let r := net_buf_read_body nb2 buffer length
        .returned r.1 r.2.1 r.2.2
    else .returned 0 buffer nb1
  else
    let r := net_buf_read_body nb buffer length
    .returned r.1 r.2.1 r.2.2

/-! ## `net_buf_stop_job`, `net_buf_get_usage` -/

/-- The function `net_buf_stop_job`. -/
def net_buf_stop_job (nb : net_buffer) : net_buffer :=
  if nb.stat == NETBUF_STAT_SUSPEND then
    { nb with wait_resume := nb.wait_resume + 1, stat := NETBUF_STAT_STOPPING }
  else if nb.stat == NETBUF_STAT_BUFFERING then
    { nb with stat := NETBUF_STAT_STOPPING }
  else nb

/-- Conversion of an unsigned word to a C `int` (two's complement), as in the `return` of
`net_buf_get_usage`. -/
def word_to_int (w : Nat) : Int :=
  if w % WORD < 2147483648 then ((w % WORD : Nat) : Int) else ((w % WORD : Nat) : Int) - (WORD : Int)

/-- The function `net_buf_get_usage`, which returns `data_length` as an `int`. -/
def net_buf_get_usage (nb : net_buffer) : Int := word_to_int nb.data_length

/-! ## The pieces of the worker -/

/-- Line 183 of `net_buf_do_stop`. -/
def do_stop_stat (nb : net_buffer) : net_buffer :=
  { nb with stat := NETBUF_STAT_STOPPED }

/-- Lines 185-190 of `net_buf_do_stop`. -/
def do_stop_wake (nb : net_buffer) : net_buffer :=
  if nb.is_wait_ready == true then
    { nb with is_wait_ready := false, wait_ready := nb.wait_ready + 1 }
  else nb

/-- Lines 192-194 of `net_buf_do_stop`, also lines 312-313 of the thread entry. -/
def do_stop_reset (nb : net_buffer) : net_buffer :=
  { nb with data_length := 0, read_index := 0, save_index := 0 }

/-- What `net_buf_do_stop` does to the shared record (the call of `close` is
recorded by the system state). -/
def net_buf_do_stop (nb : net_buffer) : net_buffer :=
  do_stop_reset (do_stop_wake (do_stop_stat nb))

/-- Line 232: the test for lack of room, on the local copy of `data_length`. -/
def room_short (nb : net_buffer) (data_length read_length : Nat) : Bool :=
  decide (usub nb.size data_length < read_length)

/-- Lines 252-271: the copy of the fetched chunk into the storage region. The cells written
are those the C calls name, also when they lie past the end of the block of `size` bytes;
`copy_in_in_block` says whether they all lie inside it. -/
def copy_in (nb : net_buffer) (ptr : Mem) (read_length : Nat) : net_buffer :=
  if usub nb.size nb.save_index < read_length then
    let first := usub nb.size nb.save_index
    let m1 := rt_memcpy nb.buffer_data nb.save_index ptr 0 first
    let m2 := rt_memcpy m1 0 ptr first (usub read_length first)
    { nb with buffer_data := m2, save_index := usub read_length first }
  else
    let m := rt_memcpy nb.buffer_data nb.save_index ptr 0 read_length
    let si := uadd nb.save_index read_length
    { nb with buffer_data := m, save_index := if si ≥ nb.size then 0 else si }

/-- One past the last cell written by `rt_memcpy(dst + d, src, n)`; 0 when `n = 0`, as no
cell is written then. -/
def span_end (d n : Nat) : Nat := if n = 0 then 0 else d + n

/-- One past the last cell of the storage region that the copy of lines 252-271 writes:
the two `rt_memcpy` calls of lines 254-258, or the one of lines 265-266. -/
def copy_in_end (nb : net_buffer) (read_length : Nat) : Nat :=
  if usub nb.size nb.save_index < read_length then
    max (span_end nb.save_index (usub nb.size nb.save_index))
      (span_end 0 (usub read_length (usub nb.size nb.save_index)))
  else span_end nb.save_index read_length

/-- Whether the copy of lines 252-271 stays inside the block of `size` bytes that
`net_buf_init` allocated. -/
def copy_in_in_block (nb : net_buffer) (read_length : Nat) : Bool :=
  decide (copy_in_end nb read_length ≤ nb.size)

/-- Lines 273-276: the critical section that raises `data_length`. -/
def add_length (nb : net_buffer) (read_length : Nat) : net_buffer :=
  { nb with data_length := uadd nb.data_length read_length }

/-- Lines 251-276: the worker's write of one chunk. -/
def worker_write (nb : net_buffer) (ptr : Mem) (read_length : Nat) : net_buffer :=
  add_length (copy_in nb ptr read_length) read_length

/-- Lines 279-289: the release of a reader that waits for readiness;
`data_length` is the worker's local copy. -/
def notify_ready (nb : net_buffer) (data_length : Nat) : net_buffer :=
  if nb.stat == NETBUF_STAT_BUFFERING && decide (data_length ≥ nb.ready_wm)
      && nb.is_wait_ready == true then
    { nb with is_wait_ready := false, wait_ready := nb.wait_ready + 1 }
  else nb

/-- The function `fd_fetch`: `read_result` is what `read()` returned. -/
def fd_fetch (read_result : Int) : Nat := int_to_word read_result

/-! ## `net_buf_start_job` -/

/-- The function `net_buf_start_job` run without interruption, on the shared
record and the mailbox; the first component is the return value. -/
def net_buf_start_job (nb : net_buffer) (mq : List net_buffer_job) (job : net_buffer_job) :
    Int × net_buffer × List net_buffer_job :=
  if nb.stat == NETBUF_STAT_STOPPED then
    (0, { nb with stat := NETBUF_STAT_BUFFERING }, rt_mq_send mq job)
  else (-1, nb, mq)

/-! ## The tasks and the system state -/

/-- Where the worker thread stands; each point names the source lines that
its next step runs. -/
inductive WorkerPC where
  | recv          -- line 305, `rt_mq_recv` (blocks on an empty mailbox)
  | check_stat    -- line 309
  | reset         -- lines 312-313
  | loop_top      -- line 211
  | fetch         -- lines 218-219
  | check_room    -- lines 229-232
  | suspend       -- lines 238-240
  | take_resume   -- lines 241-242, `rt_sem_take(wait_resume)` (blocks on zero)
  | copy_in       -- lines 252-271
  | add_length    -- lines 273-276
  | notify        -- lines 279-289
  | stop_close    -- line 180
  | stop_stat     -- line 183
  | stop_wake     -- lines 185-190
  | stop_reset    -- lines 192-194, then `break` and back to line 305
deriving DecidableEq, Repr

/-- The worker thread: its control point and the locals of `net_buf_do_job`
and `net_buf_thread_entry`. -/
structure Worker where
  pc : WorkerPC
  job : net_buffer_job
  ptr : Mem
  read_length : Nat
  data_length : Nat

/-- Where the reader stands inside `net_buf_read`. -/
inductive ReaderPC where
  | idle          -- not inside a call
  | take_ready    -- line 62, `rt_sem_take(wait_ready)` (blocks on zero)
  | body          -- lines 69-94
  | crit          -- lines 97-113
deriving DecidableEq, Repr

/-- The reader task: its control point, the arguments and locals of
`net_buf_read`, and the values its finished calls returned. -/
structure Reader where
  pc : ReaderPC
  buffer : Mem
  length : Nat
  rets : List Nat

/-- The whole system: `_netbuf`, `_netbuf_mq`, the jobs whose `net_buf_start_job`
stands between its critical section and its `rt_mq_send`, the two tasks and the
record of the `close` calls made so far. -/
structure Sys where
  netbuf : net_buffer
  netbuf_mq : List net_buffer_job
  sending : List net_buffer_job
  worker : Worker
  reader : Reader
  closed : List net_buffer_job

/-- What the environment supplies to one step of the worker: the result of
`fetch` (count and block contents) and whether `rt_sem_take` reports `RT_EOK`. -/
structure WorkerEnv where
  fetch_len : Nat
  fetch_data : Mem
  sem_ok : Bool

/-- The state after `net_buf_init(size)`: the worker waits for a job. -/
def sys_init (size : Nat) (mem : Mem) : Sys :=
  { netbuf := net_buf_init size mem
    netbuf_mq := []
    sending := []
    worker := { pc := .recv, job := ⟨0, 0, 0⟩, ptr := fun _ => 0, read_length := 0, data_length := 0 }
    reader := { pc := .idle, buffer := fun _ => 0, length := 0, rets := [] }
    closed := [] }

/-- One step of the worker thread, that is of `net_buf_thread_entry` with the bodies of
`net_buf_do_job` and `net_buf_do_stop` in the places of their calls; `none` when it is
blocked. -/
def worker_step (e : WorkerEnv) (s : Sys) : Option Sys :=
  let w := s.worker
  let nb := s.netbuf
  match w.pc with
  | .recv =>
    match s.netbuf_mq with
    | [] => none
    | j :: rest => some { s with netbuf_mq := rest, worker := { w with pc := .check_stat, job := j } }
  | .check_stat =>
    if nb.stat == NETBUF_STAT_BUFFERING then some { s with worker := { w with pc := .reset } }
    else some { s with worker := { w with pc := .recv } }
  | .reset =>
    some { s with netbuf := do_stop_reset nb, worker := { w with pc := .loop_top } }
  | .loop_top =>
    if nb.stat == NETBUF_STAT_STOPPING then some { s with worker := { w with pc := .stop_close } }
    else some { s with worker := { w with pc := .fetch } }
  | .fetch =>
    if e.fetch_len ≤ 0 then
      some { s with worker := { w with pc := .stop_close, ptr := e.fetch_data, read_length := e.fetch_len } }
    else
      some { s with worker := { w with pc := .check_room, ptr := e.fetch_data, read_length := e.fetch_len } }
  | .check_room =>
    if room_short nb nb.data_length w.read_length then
      some { s with worker := { w with pc := .suspend, data_length := nb.data_length } }
    else
      some { s with worker := { w with pc := .copy_in, data_length := nb.data_length } }
  | .suspend =>
    some { s with netbuf := { nb with stat := NETBUF_STAT_SUSPEND }, worker := { w with pc := .take_resume } }
  | .take_resume =>
    if e.sem_ok then
      if nb.wait_resume = 0 then none
      else some { s with netbuf := { nb with wait_resume := nb.wait_resume - 1 },
                         worker := { w with pc := .copy_in } }
    else some { s with worker := { w with pc := .stop_close } }
  | .copy_in =>
    some { s with netbuf := copy_in nb w.ptr w.read_length, worker := { w with pc := .add_length } }
  | .add_length =>
    let nb1 := add_length nb w.read_length
    some { s with netbuf := nb1, worker := { w with pc := .notify, data_length := nb1.data_length } }
  | .notify =>
    some { s with netbuf := notify_ready nb w.data_length, worker := { w with pc := .loop_top } }
  | .stop_close =>
    some { s with closed := s.closed ++ [w.job], worker := { w with pc := .stop_stat } }
  | .stop_stat =>
    some { s with netbuf := do_stop_stat nb, worker := { w with pc := .stop_wake } }
  | .stop_wake =>
    some { s with netbuf := do_stop_wake nb, worker := { w with pc := .stop_reset } }
  | .stop_reset =>
    some { s with netbuf := do_stop_reset nb, worker := { w with pc := .recv } }

/-- The reader enters `net_buf_read(buffer, length)` (lines 51-58); `none` when
it is already inside a call. -/
def reader_call (buffer : Mem) (length : Nat) (s : Sys) : Option Sys :=
  let r := s.reader
  match r.pc with
  | .idle =>
    if net_buf_read_wait s.netbuf then
      some { s with netbuf := { s.netbuf with is_wait_ready := true },
                    reader := { r with pc := .take_ready, buffer := buffer, length := length } }
    else some { s with reader := { r with pc := .body, buffer := buffer, length := length } }
  | _ => none

/-- One step of the reader inside `net_buf_read`; `none` when it is blocked or
not inside a call. -/
def reader_step (sem_ok : Bool) (s : Sys) : Option Sys :=
  let r := s.reader
  let nb := s.netbuf
  match r.pc with
  | .idle => none
  | .take_ready =>
    if sem_ok then
      if nb.wait_ready = 0 then none
      else some { s with netbuf := { nb with wait_ready := nb.wait_ready - 1 },
                         reader := { r with pc := .body } }
    else some { s with reader := { r with pc := .idle, rets := r.rets ++ [0] } }
  | .body =>
    let data_length := nb.data_length
    let length := if r.length > data_length then data_length else r.length
    if data_length > 0 then
      let c := net_buf_read_copy nb r.buffer length
      some { s with netbuf := c.2, reader := { r with pc := .crit, buffer := c.1, length := length } }
    else some { s with reader := { r with pc := .idle, length := length, rets := r.rets ++ [length] } }
  | .crit =>
    some { s with netbuf := net_buf_read_update nb r.length,
                  reader := { r with pc := .idle, rets := r.rets ++ [r.length] } }

/-- Lines 131-137 and 144-146 of `net_buf_start_job`: the critical section.
An accepted job is held by its caller until the `rt_mq_send` of line 141. -/
def start_enter (job : net_buffer_job) (s : Sys) : Sys :=
  if s.netbuf.stat == NETBUF_STAT_STOPPED then
    { s with netbuf := { s.netbuf with stat := NETBUF_STAT_BUFFERING }, sending := s.sending ++ [job] }
  else s

/-- Line 141 of `net_buf_start_job`, for the `i`-th caller that holds an
accepted job; `none` when there is no such caller. -/
def start_send (i : Nat) (s : Sys) : Option Sys :=
  match s.sending.get? i with
  | none => none
  | some job => some { s with netbuf_mq := rt_mq_send s.netbuf_mq job, sending := s.sending.eraseIdx i }

/-- The moves of the system. -/
inductive Label where
  | start_enter (job : net_buffer_job)
  | start_send (i : Nat)
  | stop
  | worker (e : WorkerEnv)
  | read_call (buffer : Mem) (length : Nat)
  | reader (sem_ok : Bool)

/-- One move of the system; `none` when the task that would move cannot. -/
def step (l : Label) (s : Sys) : Option Sys :=
  match l with
  | .start_enter job => some (start_enter job s)
  | .start_send i => start_send i s
  | .stop => some { s with netbuf := net_buf_stop_job s.netbuf }
  | .worker e => worker_step e s
  | .read_call buffer length => reader_call buffer length s
  | .reader sem_ok => reader_step sem_ok s

/-- A run: the moves of a list, in order; `none` as soon as one cannot be made. -/
def run : List Label → Sys → Option Sys
  | [], s => some s
  | l :: ls, s => (step l s).bind (run ls)

/-- The states the system can be in after `net_buf_init(size)`. -/
inductive Reachable (size : Nat) (mem : Mem) : Sys → Prop where
  | init : Reachable size mem (sys_init size mem)
  | step {s s' : Sys} (l : Label) : Reachable size mem s → step l s = some s' →
      Reachable size mem s'

/-- The worker runs alone, one step per element of `es`, until it is back at
`rt_mq_recv`; `none` when it blocks or `es` runs out before that. -/
def worker_run : List WorkerEnv → Sys → Option Sys
  | [], s => if s.worker.pc = .recv then some s else none
  | e :: es, s => if s.worker.pc = .recv then some s else (worker_step e s).bind (worker_run es)

/-! ## Concrete inputs -/

/-- A Suspended store of capacity 1000 that holds 1000 bytes. -/
def nb_full_suspended : net_buffer :=
  { net_buf_init 1000 (fun _ => 0) with data_length := 1000, stat := NETBUF_STAT_SUSPEND }

/-- A job descriptor. -/
def job1 : net_buffer_job := ⟨1, 2, 3⟩

/-- A block whose cell `i` holds `i mod 256`. -/
def ramp : Mem := fun i => i % 256

/-- A block of zeros. -/
def zero_mem : Mem := fun _ => 0

/-- The environment of a worker step whose `fetch` delivers `n` bytes of `ramp`. -/
def chunk (n : Nat) : WorkerEnv := ⟨n, ramp, true⟩

/-- A job is started and the worker takes it, fetches a first chunk of `n` bytes that fits,
stores it and is back at the top of its loop (9 worker steps). -/
def first_chunk_run (n : Nat) : List Label :=
  [.start_enter job1, .start_send 0] ++ List.replicate 9 (.worker (chunk n))

/-- The record right after a job was accepted at capacity 1000: Buffering and empty. -/
def nb_started : net_buffer :=
  { net_buf_init 1000 zero_mem with stat := NETBUF_STAT_BUFFERING }

/-- The worker goes round its loop and suspends on a second chunk of 1000 bytes (4 steps:
loop top, fetch, room test, state change). -/
def second_chunk_suspends : List Label := List.replicate 4 (.worker (chunk 1000))

/-- A whole `net_buf_read` of up to 250 bytes by a reader that does not have to wait. -/
def read_250 : List Label := [.read_call zero_mem 250, .reader true, .reader true]

/-- The run at capacity 1000 with chunks of 1000 bytes: the first chunk is stored, the worker
suspends on the second, a reader drains 250 bytes and so resumes the worker, which takes
`wait_resume`, copies the second chunk in and adds its length. -/
def overfill_run : List Label :=
  first_chunk_run 1000 ++ second_chunk_suspends ++ read_250 ++
    List.replicate 3 (.worker (chunk 1000))

/-- After `overfill_run`, the worker goes round its loop once more and tests the room for a
third chunk of 1000 bytes (4 steps: notify, loop top, fetch, room test). -/
def third_chunk_run : List Label := overfill_run ++ List.replicate 4 (.worker (chunk 1000))

/-- A job is started and stopped before the worker has taken it from the mailbox; the worker
then takes it and tests the state (2 steps). -/
def stop_before_dequeue_run : List Label :=
  [.start_enter job1, .start_send 0, .stop, .worker (chunk 1000), .worker (chunk 1000)]

/-- The environment of a worker step whose `fetch` is `fd_fetch` and whose `read()` fails
with -1. -/
def read_error : WorkerEnv := ⟨fd_fetch (-1), ramp, true⟩

/-- After a first chunk of 100 bytes at capacity 1000, the worker goes to the top of its
loop, `fd_fetch` hands on the -1 of a failed `read()`, and the worker tests the room and
changes the state (4 steps). -/
def read_error_run : List Label :=
  first_chunk_run 100 ++ List.replicate 4 (.worker read_error)

/-- At capacity 1000 the first chunk, of 990 bytes, is stored; the worker then goes round its
loop, fetches a chunk of 1024 bytes, finds no room for it and sets the state to Suspended
(4 steps), which leaves it blocked in `rt_sem_take(wait_resume)`. -/
def suspended_at_990_run : List Label :=
  first_chunk_run 990 ++ List.replicate 4 (.worker (chunk 1024))

/-- The state at capacity 1000 in which the first chunk of 1000 bytes is stored and the
worker is blocked in `rt_sem_take(wait_resume)` with a second chunk of 1000 bytes in hand. -/
def sys_suspended : Sys :=
  { netbuf :=
      { net_buf_init 1000 zero_mem with
        buffer_data := rt_memcpy zero_mem 0 ramp 0 1000
        data_length := 1000
        stat := NETBUF_STAT_SUSPEND }
    netbuf_mq := []
    sending := []
    worker := { pc := .take_resume, job := job1, ptr := ramp, read_length := 1000, data_length := 1000 }
    reader := { pc := .idle, buffer := zero_mem, length := 0, rets := [] }
    closed := [] }

/-! ## The mailbox invariant -/

/-- The control points of the worker inside `net_buf_do_job` up to and including the line
that sets the state to Stopped, and the test of line 309 before it. -/
def in_job : WorkerPC → Bool
  | .recv => false
  | .stop_wake => false
  | .stop_reset => false
  | _ => true

/-- At most one accepted job is on its way to the worker (in the mailbox or held by a caller
before its `rt_mq_send`); while one is, the state is not Stopped and the worker is not
handling a job; and while the worker handles a job the state is not Stopped. -/
def mailbox_inv (s : Sys) : Prop :=
  s.netbuf_mq.length + s.sending.length ≤ 1 ∧
  (0 < s.netbuf_mq.length + s.sending.length →
    s.netbuf.stat ≠ NETBUF_STAT_STOPPED ∧ in_job s.worker.pc = false) ∧
  (in_job s.worker.pc = true → s.netbuf.stat ≠ NETBUF_STAT_STOPPED)

/-! ## Sequences of writes and reads -/

/-- An index that has run at most once past the end of a region of `size` bytes, brought
back into the region. -/
def wrap (size x : Nat) : Nat := if x < size then x else x - size

/-- The unread bytes of the store, oldest first: the `data_length` bytes from `read_index`
on, going round the end of the region. -/
def contents (nb : net_buffer) : List Byte :=
  (List.range nb.data_length).map (fun i => nb.buffer_data (wrap nb.size (nb.read_index + i)))

/-- The record a call of `net_buf_read` leaves. -/
def ReadOutcome.nb : ReadOutcome → net_buffer
  | .blocked nb => nb
  | .returned _ _ nb => nb

/-- The bytes a call of `net_buf_read` gives back: the first `n` bytes of the caller's
buffer when it returns `n`, none while it is blocked. -/
def ReadOutcome.bytes : ReadOutcome → List Byte
  | .blocked _ => []
  | .returned n buffer _ => NetBuf.bytes buffer n

/-- One operation on the store: the worker's write of the chunk of `len` bytes at `ptr`
(lines 251-276), or a call `net_buf_read(buffer, length)`. -/
inductive StoreOp where
  | write (ptr : Mem) (len : Nat)
  | read (buffer : Mem) (length : Nat) (sem_ok : Bool)

/-- The store together with all the bytes written into it and all the bytes the reads
gave back, both in order. -/
structure Transcript where
  nb : net_buffer
  written : List Byte
  returned : List Byte

/-- One operation, recorded. -/
def apply_op (t : Transcript) : StoreOp → Transcript
  | .write ptr len =>
    { nb := worker_write t.nb ptr len
      written := t.written ++ bytes ptr len
      returned := t.returned }
  | .read buffer length sem_ok =>
    { nb := (net_buf_read t.nb buffer length sem_ok).nb
      written := t.written
      returned := t.returned ++ (net_buf_read t.nb buffer length sem_ok).bytes }

/-- A sequence of operations, recorded. -/
def run_ops (t : Transcript) (ops : List StoreOp) : Transcript := ops.foldl apply_op t

/-- Every chunk of the sequence fits in the free space at the time it is written. -/
def chunks_fit : net_buffer → List StoreOp → Prop
  | _, [] => True
  | nb, .write ptr len :: ops =>
    nb.data_length + len ≤ nb.size ∧ chunks_fit (worker_write nb ptr len) ops
  | nb, .read buffer length sem_ok :: ops =>
    chunks_fit (net_buf_read nb buffer length sem_ok).nb ops

/-- The consistency of the indices with the length: both indices inside the region, the
length at most the capacity, and `save_index` equal to `read_index + data_length` round the
end of the region. -/
def ring_ok (nb : net_buffer) : Prop :=
  nb.read_index < nb.size ∧ nb.save_index < nb.size ∧ nb.data_length ≤ nb.size ∧
    nb.save_index = wrap nb.size (nb.read_index + nb.data_length)

instance chunks_fit_decidable :
    (nb : net_buffer) → (ops : List StoreOp) → Decidable (chunks_fit nb ops)
  | _, [] => isTrue trivial
  | nb, .write ptr len :: ops =>
    @instDecidableAnd _ _ _ (chunks_fit_decidable (worker_write nb ptr len) ops)
  | nb, .read buffer length sem_ok :: ops =>
    chunks_fit_decidable (net_buf_read nb buffer length sem_ok).nb ops

/-- A block whose cell `i` holds `k + i`. -/
def ramp_from (k : Nat) : Mem := fun i => k + i

/-- The record after `net_buf_init(8)`. -/
def nb8 : net_buffer := net_buf_init 8 zero_mem

/-- At capacity 8: write 6 bytes, read 4, write 5 (round the end), read up to 7 (round the
end). -/
def wrap_ops : List StoreOp :=
  [.write (ramp_from 0) 6, .read zero_mem 4 true, .write (ramp_from 10) 5,
    .read zero_mem 7 true]

/-- The environment of a worker step whose `fetch` reports the end of the source. -/
def end_of_source : WorkerEnv := ⟨0, ramp, true⟩

/-- At capacity 1000: a job is started, the reader calls `net_buf_read` on the empty store
and waits, the worker stores two chunks of 100 bytes, the third `fetch` returns 0 and the
worker runs the termination sequence (6 steps: loop top, fetch, and the four of
`net_buf_do_stop`); the reader then takes `wait_ready` and finishes its call. -/
def end_of_source_run : List Label :=
  [.start_enter job1, .start_send 0, .read_call zero_mem 512] ++
    List.replicate 9 (.worker (chunk 100)) ++
    List.replicate 6 (.worker (chunk 100)) ++
    List.replicate 6 (.worker end_of_source) ++
    [.reader true, .reader true]

/-- A whole `net_buf_read` of up to 512 bytes by a reader that does not have to wait. -/
def read_512 : List Label := [.read_call zero_mem 512, .reader true, .reader true]

/-- At capacity 1000 the first chunk of 1000 bytes is stored, which takes `data_length` past
`ready_wm`, and two reads of up to 512 bytes drain the store. -/
def drain_run : List Label := first_chunk_run 1000 ++ read_512 ++ read_512

/-! ## The ring buffer of `kfifo.c` and `kfifo.h`

`uint32_t` arithmetic is arithmetic modulo `WORD`; the mutex, which only keeps the calls from
overlapping, is left out, so that every function is the whole call. -/

/-- The call `memcpy(dst + d, src + s, n)` of `string.h`. -/
abbrev memcpy (dst : Mem) (d : Nat) (src : Mem) (s : Nat) (n : Nat) : Mem :=
  rt_memcpy dst d src s n

/-- The record `kfifo` without its lock; the counter `in` is called `in_` here. -/
structure kfifo where
  buffer : Mem
  size : Nat
  in_ : Nat
  out : Nat

/-- The `min(a, b)` of `kfifo.c`: `((a) < (b)) ? (a) : (b)`. -/
def kfifo_min (a b : Nat) : Nat := if a < b then a else b

/-- The function `kfifo_reset`. -/
def kfifo_reset (fifo : kfifo) : kfifo := { fifo with in_ := 0, out := 0 }

/-- The function `kfifo_size`. -/
def kfifo_size (fifo : kfifo) : Nat := fifo.size

/-- The function `kfifo_len`. -/
def kfifo_len (fifo : kfifo) : Nat := usub fifo.in_ fifo.out

/-- The function `kfifo_is_avail`. -/
def kfifo_is_avail (fifo : kfifo) : Nat := usub (kfifo_size fifo) (kfifo_len fifo)

/-- The function `kfifo_is_empty`. -/
def kfifo_is_empty (fifo : kfifo) : Bool := kfifo_len fifo == 0

/-- The function `kfifo_is_full`. -/
def kfifo_is_full (fifo : kfifo) : Bool := kfifo_is_avail fifo == 0

/-- The function `kfifo_in`: the count returned and the fifo after the call. -/
def kfifo_in (fifo : kfifo) (inp : Mem) (len : Nat) : Nat × kfifo :=
  let len := kfifo_min len (kfifo_is_avail fifo)
  let l := kfifo_min len (usub fifo.size (fifo.in_ &&& usub fifo.size 1))
  let b1 := memcpy fifo.buffer (fifo.in_ &&& usub fifo.size 1) inp 0 l
  let b2 := memcpy b1 0 inp l (usub len l)
  (len, { fifo with buffer := b2, in_ := uadd fifo.in_ len })

/-- The function `kfifo_out`: the count returned, the caller's block and the fifo after the
call. -/
def kfifo_out (fifo : kfifo) (out : Mem) (len : Nat) : Nat × Mem × kfifo :=
  let len := kfifo_min len (kfifo_len fifo)
  let l := kfifo_min len (usub fifo.size (fifo.out &&& usub fifo.size 1))
  let o1 := memcpy out 0 fifo.buffer (fifo.out &&& usub fifo.size 1) l
  let o2 := memcpy o1 l fifo.buffer 0 (usub len l)
  (len, o2, { fifo with out := uadd fifo.out len })

/-- The function `is_power_of_2`. -/
def is_power_of_2 (x : Nat) : Bool := (x != 0) && ((x &&& usub x 1) == 0)

/-- The loop of `roundup_pow_of_two` with `n` iterations left, the next of them for the
index `i`; `b` is the value of the variable `b` so far. -/
def roundup_loop (x : Nat) : Nat → Nat → Nat → Nat
  | 0, _, b => b
  | n + 1, i, _ =>
    let b := (1 <<< i) % WORD
    if x ≤ b then b else roundup_loop x n (i + 1) b

/-- The function `roundup_pow_of_two`: the loop runs for `i` from 0 to 31. -/
def roundup_pow_of_two (x : Nat) : Nat := roundup_loop x 32 0 0

/-- The function `kfifo_malloc`; `fifo_ok` and `buffer_ok` say whether the two allocations
succeed, `mem` is the content of the block allocated for the buffer, and `none` is the
return value `NULL`. -/
def kfifo_malloc (size : Nat) (fifo_ok buffer_ok : Bool) (mem : Mem) : Option kfifo :=
  if fifo_ok then
    if is_power_of_2 size != true && decide (size > 0x80000000) then none
    else
      let size := if is_power_of_2 size != true then roundup_pow_of_two size else size
      if buffer_ok then some { buffer := mem, size := size, in_ := 0, out := 0 }
      else none
  else none

/-- The bytes held by the fifo, oldest first. -/
def kfifo_contents (fifo : kfifo) : List Byte :=
  (List.range (kfifo_len fifo)).map (fun i => fifo.buffer ((fifo.out + i) % fifo.size))

/-- A fifo as `kfifo_malloc` makes it and the calls keep it: the size is a power of two
that fits a `uint32_t`, the counters are words, and no more than `size` bytes are held. -/
def kfifo_ok (fifo : kfifo) : Prop :=
  (∃ k, k < 32 ∧ fifo.size = 2 ^ k) ∧ fifo.in_ < WORD ∧ fifo.out < WORD ∧
    kfifo_len fifo ≤ fifo.size

/-- One call on a fifo: `kfifo_in(fifo, d, len)` or `kfifo_out(fifo, out, len)`. -/
inductive FifoOp where
  | put (d : Mem) (len : Nat)
  | get (out : Mem) (len : Nat)

/-- A fifo together with all the bytes the `kfifo_in` calls stored in it and all the bytes
the `kfifo_out` calls gave back, both in order. -/
structure FifoTrace where
  fifo : kfifo
  stored : List Byte
  got : List Byte

/-- One call, recorded. -/
def fifo_apply (t : FifoTrace) : FifoOp → FifoTrace
  | .put d len =>
    { fifo := (kfifo_in t.fifo d len).2
      stored := t.stored ++ bytes d (kfifo_in t.fifo d len).1
      got := t.got }
  | .get out len =>
    { fifo := (kfifo_out t.fifo out len).2.2
      stored := t.stored
      got := t.got ++ bytes (kfifo_out t.fifo out len).2.1 (kfifo_out t.fifo out len).1 }

/-- A sequence of calls, recorded. -/
def fifo_run (t : FifoTrace) (ops : List FifoOp) : FifoTrace := ops.foldl fifo_apply t

/-- An empty fifo of 8 bytes whose counters stand 3 below 2^32, at position 5 of the
buffer. -/
def fifo8 : kfifo := { buffer := zero_mem, size := 8, in_ := 4294967293, out := 4294967293 }

/-- On `fifo8`: six bytes are put in (of eleven offered, then of none as the fifo has two
free bytes left only for the second call), then read back in two calls. -/
def fifo8_ops : List FifoOp :=
  [.put (ramp_from 20) 6, .put (ramp_from 40) 5, .get zero_mem 3, .get zero_mem 9]

/-- The number `r` is the least power of two that is at least `x`. -/
def least_pow2_ge (x r : Nat) : Prop :=
  (∃ k, r = 2 ^ k) ∧ x ≤ r ∧ ∀ j, x ≤ 2 ^ j → r ≤ 2 ^ j

/-- The consistency predicate of the store, with the position of `save_index` written with
the remainder: both indices inside the region, the length at most the capacity, and
`(read_index + data_length) mod size = save_index`. -/
def store_inv (nb : net_buffer) : Prop :=
  nb.read_index < nb.size ∧ nb.save_index < nb.size ∧ nb.data_length ≤ nb.size ∧
    (nb.read_index + nb.data_length) % nb.size = nb.save_index

/-- At capacity 1000, with the first chunk of 1000 bytes stored: the worker passes the test
of line 211, `net_buf_stop_job` is called while the worker is in `fetch`, and the worker
then gets a second chunk of 1000 bytes and tests the room (3 steps in all). -/
def stop_during_fetch_run : List Label :=
  first_chunk_run 1000 ++
    [.worker (chunk 1000), .stop, .worker (chunk 1000), .worker (chunk 1000)]

/-- At capacity 1000 with chunks of 400 bytes and no stop: a job is started, the reader
calls `net_buf_read` on the empty store and waits, the worker stores two chunks (9 and 6
steps), and on the third it goes round its loop, fetches, tests the room and sets the state
to Suspended (4 steps). -/
def both_wait_run : List Label :=
  [.start_enter job1, .start_send 0, .read_call zero_mem 512] ++
    List.replicate 9 (.worker (chunk 400)) ++
    List.replicate 6 (.worker (chunk 400)) ++
    List.replicate 4 (.worker (chunk 400))

/-- The state at capacity 1000 right after one accepted `net_buf_start_job`: Buffering,
with `job1` in the mailbox and the worker still waiting on it. -/
def sys_started : Sys :=
  { sys_init 1000 zero_mem with
    netbuf := { net_buf_init 1000 zero_mem with stat := NETBUF_STAT_BUFFERING }
    netbuf_mq := [job1] }

/-! # Lemmas and theorems -/

/-! ## Word arithmetic -/

theorem usub_of_le {a b : Nat} (ha : a < WORD) (hb : b ≤ a) : usub a b = a - b := by
  unfold usub
  have hb' : b % WORD = b := Nat.mod_eq_of_lt (by omega)
  rw [hb']
  have : a + (WORD - b) = (a - b) + WORD := by omega
  rw [this, Nat.add_mod_right]
  exact Nat.mod_eq_of_lt (by omega)

theorem uadd_of_lt {a b : Nat} (h : a + b < WORD) : uadd a b = a + b := by
  unfold uadd
  exact Nat.mod_eq_of_lt h

/-! ## Frame lemmas: the fields each piece leaves as they were -/

@[simp] theorem copy_in_read_index (nb : net_buffer) (ptr : Mem) (read_length : Nat) :
    (copy_in nb ptr read_length).read_index = nb.read_index := by
  unfold copy_in; split <;> rfl

@[simp] theorem copy_in_data_length (nb : net_buffer) (ptr : Mem) (read_length : Nat) :
    (copy_in nb ptr read_length).data_length = nb.data_length := by
  unfold copy_in; split <;> rfl

@[simp] theorem copy_in_size (nb : net_buffer) (ptr : Mem) (read_length : Nat) :
    (copy_in nb ptr read_length).size = nb.size := by
  unfold copy_in; split <;> rfl

@[simp] theorem copy_in_ready_wm (nb : net_buffer) (ptr : Mem) (read_length : Nat) :
    (copy_in nb ptr read_length).ready_wm = nb.ready_wm := by
  unfold copy_in; split <;> rfl

@[simp] theorem copy_in_resume_wm (nb : net_buffer) (ptr : Mem) (read_length : Nat) :
    (copy_in nb ptr read_length).resume_wm = nb.resume_wm := by
  unfold copy_in; split <;> rfl

@[simp] theorem copy_in_is_wait_ready (nb : net_buffer) (ptr : Mem) (read_length : Nat) :
    (copy_in nb ptr read_length).is_wait_ready = nb.is_wait_ready := by
  unfold copy_in; split <;> rfl

@[simp] theorem copy_in_wait_ready (nb : net_buffer) (ptr : Mem) (read_length : Nat) :
    (copy_in nb ptr read_length).wait_ready = nb.wait_ready := by
  unfold copy_in; split <;> rfl

@[simp] theorem copy_in_wait_resume (nb : net_buffer) (ptr : Mem) (read_length : Nat) :
    (copy_in nb ptr read_length).wait_resume = nb.wait_resume := by
  unfold copy_in; split <;> rfl

@[simp] theorem copy_in_stat (nb : net_buffer) (ptr : Mem) (read_length : Nat) :
    (copy_in nb ptr read_length).stat = nb.stat := by
  unfold copy_in; split <;> rfl

@[simp] theorem add_length_read_index (nb : net_buffer) (read_length : Nat) :
    (add_length nb read_length).read_index = nb.read_index := by
  rfl

@[simp] theorem add_length_save_index (nb : net_buffer) (read_length : Nat) :
    (add_length nb read_length).save_index = nb.save_index := by
  rfl

@[simp] theorem add_length_buffer_data (nb : net_buffer) (read_length : Nat) :
    (add_length nb read_length).buffer_data = nb.buffer_data := by
  rfl

@[simp] theorem add_length_size (nb : net_buffer) (read_length : Nat) :
    (add_length nb read_length).size = nb.size := by
  rfl

@[simp] theorem add_length_ready_wm (nb : net_buffer) (read_length : Nat) :
    (add_length nb read_length).ready_wm = nb.ready_wm := by
  rfl

@[simp] theorem add_length_resume_wm (nb : net_buffer) (read_length : Nat) :
    (add_length nb read_length).resume_wm = nb.resume_wm := by
  rfl

@[simp] theorem add_length_is_wait_ready (nb : net_buffer) (read_length : Nat) :
    (add_length nb read_length).is_wait_ready = nb.is_wait_ready := by
  rfl

@[simp] theorem add_length_wait_ready (nb : net_buffer) (read_length : Nat) :
    (add_length nb read_length).wait_ready = nb.wait_ready := by
  rfl

@[simp] theorem add_length_wait_resume (nb : net_buffer) (read_length : Nat) :
    (add_length nb read_length).wait_resume = nb.wait_resume := by
  rfl

@[simp] theorem add_length_stat (nb : net_buffer) (read_length : Nat) :
    (add_length nb read_length).stat = nb.stat := by
  rfl

@[simp] theorem notify_ready_read_index (nb : net_buffer) (data_length : Nat) :
    (notify_ready nb data_length).read_index = nb.read_index := by
  unfold notify_ready; split <;> rfl

@[simp] theorem notify_ready_save_index (nb : net_buffer) (data_length : Nat) :
    (notify_ready nb data_length).save_index = nb.save_index := by
  unfold notify_ready; split <;> rfl

@[simp] theorem notify_ready_buffer_data (nb : net_buffer) (data_length : Nat) :
    (notify_ready nb data_length).buffer_data = nb.buffer_data := by
  unfold notify_ready; split <;> rfl

@[simp] theorem notify_ready_data_length (nb : net_buffer) (data_length : Nat) :
    (notify_ready nb data_length).data_length = nb.data_length := by
  unfold notify_ready; split <;> rfl

@[simp] theorem notify_ready_size (nb : net_buffer) (data_length : Nat) :
    (notify_ready nb data_length).size = nb.size := by
  unfold notify_ready; split <;> rfl

@[simp] theorem notify_ready_ready_wm (nb : net_buffer) (data_length : Nat) :
    (notify_ready nb data_length).ready_wm = nb.ready_wm := by
  unfold notify_ready; split <;> rfl

@[simp] theorem notify_ready_resume_wm (nb : net_buffer) (data_length : Nat) :
    (notify_ready nb data_length).resume_wm = nb.resume_wm := by
  unfold notify_ready; split <;> rfl

@[simp] theorem notify_ready_wait_resume (nb : net_buffer) (data_length : Nat) :
    (notify_ready nb data_length).wait_resume = nb.wait_resume := by
  unfold notify_ready; split <;> rfl

@[simp] theorem notify_ready_stat (nb : net_buffer) (data_length : Nat) :
    (notify_ready nb data_length).stat = nb.stat := by
  unfold notify_ready; split <;> rfl

@[simp] theorem do_stop_stat_read_index (nb : net_buffer) :
    (do_stop_stat nb).read_index = nb.read_index := by
  rfl

@[simp] theorem do_stop_stat_save_index (nb : net_buffer) :
    (do_stop_stat nb).save_index = nb.save_index := by
  rfl

@[simp] theorem do_stop_stat_buffer_data (nb : net_buffer) :
    (do_stop_stat nb).buffer_data = nb.buffer_data := by
  rfl

@[simp] theorem do_stop_stat_data_length (nb : net_buffer) :
    (do_stop_stat nb).data_length = nb.data_length := by
  rfl

@[simp] theorem do_stop_stat_size (nb : net_buffer) :
    (do_stop_stat nb).size = nb.size := by
  rfl

@[simp] theorem do_stop_stat_ready_wm (nb : net_buffer) :
    (do_stop_stat nb).ready_wm = nb.ready_wm := by
  rfl

@[simp] theorem do_stop_stat_resume_wm (nb : net_buffer) :
    (do_stop_stat nb).resume_wm = nb.resume_wm := by
  rfl

@[simp] theorem do_stop_stat_is_wait_ready (nb : net_buffer) :
    (do_stop_stat nb).is_wait_ready = nb.is_wait_ready := by
  rfl

@[simp] theorem do_stop_stat_wait_ready (nb : net_buffer) :
    (do_stop_stat nb).wait_ready = nb.wait_ready := by
  rfl

@[simp] theorem do_stop_stat_wait_resume (nb : net_buffer) :
    (do_stop_stat nb).wait_resume = nb.wait_resume := by
  rfl

@[simp] theorem do_stop_wake_read_index (nb : net_buffer) :
    (do_stop_wake nb).read_index = nb.read_index := by
  unfold do_stop_wake; split <;> rfl

@[simp] theorem do_stop_wake_save_index (nb : net_buffer) :
    (do_stop_wake nb).save_index = nb.save_index := by
  unfold do_stop_wake; split <;> rfl

@[simp] theorem do_stop_wake_buffer_data (nb : net_buffer) :
    (do_stop_wake nb).buffer_data = nb.buffer_data := by
  unfold do_stop_wake; split <;> rfl

@[simp] theorem do_stop_wake_data_length (nb : net_buffer) :
    (do_stop_wake nb).data_length = nb.data_length := by
  unfold do_stop_wake; split <;> rfl

@[simp] theorem do_stop_wake_size (nb : net_buffer) :
    (do_stop_wake nb).size = nb.size := by
  unfold do_stop_wake; split <;> rfl

@[simp] theorem do_stop_wake_ready_wm (nb : net_buffer) :
    (do_stop_wake nb).ready_wm = nb.ready_wm := by
  unfold do_stop_wake; split <;> rfl

@[simp] theorem do_stop_wake_resume_wm (nb : net_buffer) :
    (do_stop_wake nb).resume_wm = nb.resume_wm := by
  unfold do_stop_wake; split <;> rfl

@[simp] theorem do_stop_wake_wait_resume (nb : net_buffer) :
    (do_stop_wake nb).wait_resume = nb.wait_resume := by
  unfold do_stop_wake; split <;> rfl

@[simp] theorem do_stop_wake_stat (nb : net_buffer) :
    (do_stop_wake nb).stat = nb.stat := by
  unfold do_stop_wake; split <;> rfl

@[simp] theorem do_stop_reset_buffer_data (nb : net_buffer) :
    (do_stop_reset nb).buffer_data = nb.buffer_data := by
  rfl

@[simp] theorem do_stop_reset_size (nb : net_buffer) :
    (do_stop_reset nb).size = nb.size := by
  rfl

@[simp] theorem do_stop_reset_ready_wm (nb : net_buffer) :
    (do_stop_reset nb).ready_wm = nb.ready_wm := by
  rfl

@[simp] theorem do_stop_reset_resume_wm (nb : net_buffer) :
    (do_stop_reset nb).resume_wm = nb.resume_wm := by
  rfl

@[simp] theorem do_stop_reset_is_wait_ready (nb : net_buffer) :
    (do_stop_reset nb).is_wait_ready = nb.is_wait_ready := by
  rfl

@[simp] theorem do_stop_reset_wait_ready (nb : net_buffer) :
    (do_stop_reset nb).wait_ready = nb.wait_ready := by
  rfl

@[simp] theorem do_stop_reset_wait_resume (nb : net_buffer) :
    (do_stop_reset nb).wait_resume = nb.wait_resume := by
  rfl

@[simp] theorem do_stop_reset_stat (nb : net_buffer) :
    (do_stop_reset nb).stat = nb.stat := by
  rfl

@[simp] theorem net_buf_read_copy_save_index (nb : net_buffer) (buffer : Mem) (length : Nat) :
    ((net_buf_read_copy nb buffer length).2).save_index = nb.save_index := by
  unfold net_buf_read_copy; split <;> rfl

@[simp] theorem net_buf_read_copy_buffer_data (nb : net_buffer) (buffer : Mem) (length : Nat) :
    ((net_buf_read_copy nb buffer length).2).buffer_data = nb.buffer_data := by
  unfold net_buf_read_copy; split <;> rfl

@[simp] theorem net_buf_read_copy_data_length (nb : net_buffer) (buffer : Mem) (length : Nat) :
    ((net_buf_read_copy nb buffer length).2).data_length = nb.data_length := by
  unfold net_buf_read_copy; split <;> rfl

@[simp] theorem net_buf_read_copy_size (nb : net_buffer) (buffer : Mem) (length : Nat) :
    ((net_buf_read_copy nb buffer length).2).size = nb.size := by
  unfold net_buf_read_copy; split <;> rfl

@[simp] theorem net_buf_read_copy_ready_wm (nb : net_buffer) (buffer : Mem) (length : Nat) :
    ((net_buf_read_copy nb buffer length).2).ready_wm = nb.ready_wm := by
  unfold net_buf_read_copy; split <;> rfl

@[simp] theorem net_buf_read_copy_resume_wm (nb : net_buffer) (buffer : Mem) (length : Nat) :
    ((net_buf_read_copy nb buffer length).2).resume_wm = nb.resume_wm := by
  unfold net_buf_read_copy; split <;> rfl

@[simp] theorem net_buf_read_copy_is_wait_ready (nb : net_buffer) (buffer : Mem) (length : Nat) :
    ((net_buf_read_copy nb buffer length).2).is_wait_ready = nb.is_wait_ready := by
  unfold net_buf_read_copy; split <;> rfl

@[simp] theorem net_buf_read_copy_wait_ready (nb : net_buffer) (buffer : Mem) (length : Nat) :
    ((net_buf_read_copy nb buffer length).2).wait_ready = nb.wait_ready := by
  unfold net_buf_read_copy; split <;> rfl

@[simp] theorem net_buf_read_copy_wait_resume (nb : net_buffer) (buffer : Mem) (length : Nat) :
    ((net_buf_read_copy nb buffer length).2).wait_resume = nb.wait_resume := by
  unfold net_buf_read_copy; split <;> rfl

@[simp] theorem net_buf_read_copy_stat (nb : net_buffer) (buffer : Mem) (length : Nat) :
    ((net_buf_read_copy nb buffer length).2).stat = nb.stat := by
  unfold net_buf_read_copy; split <;> rfl

@[simp] theorem net_buf_read_update_read_index (nb : net_buffer) (length : Nat) :
    (net_buf_read_update nb length).read_index = nb.read_index := by
  simp only [net_buf_read_update]; split <;> rfl

@[simp] theorem net_buf_read_update_save_index (nb : net_buffer) (length : Nat) :
    (net_buf_read_update nb length).save_index = nb.save_index := by
  simp only [net_buf_read_update]; split <;> rfl

@[simp] theorem net_buf_read_update_buffer_data (nb : net_buffer) (length : Nat) :
    (net_buf_read_update nb length).buffer_data = nb.buffer_data := by
  simp only [net_buf_read_update]; split <;> rfl

@[simp] theorem net_buf_read_update_size (nb : net_buffer) (length : Nat) :
    (net_buf_read_update nb length).size = nb.size := by
  simp only [net_buf_read_update]; split <;> rfl

@[simp] theorem net_buf_read_update_ready_wm (nb : net_buffer) (length : Nat) :
    (net_buf_read_update nb length).ready_wm = nb.ready_wm := by
  simp only [net_buf_read_update]; split <;> rfl

@[simp] theorem net_buf_read_update_resume_wm (nb : net_buffer) (length : Nat) :
    (net_buf_read_update nb length).resume_wm = nb.resume_wm := by
  simp only [net_buf_read_update]; split <;> rfl

@[simp] theorem net_buf_read_update_is_wait_ready (nb : net_buffer) (length : Nat) :
    (net_buf_read_update nb length).is_wait_ready = nb.is_wait_ready := by
  simp only [net_buf_read_update]; split <;> rfl

@[simp] theorem net_buf_read_update_wait_ready (nb : net_buffer) (length : Nat) :
    (net_buf_read_update nb length).wait_ready = nb.wait_ready := by
  simp only [net_buf_read_update]; split <;> rfl

@[simp] theorem net_buf_stop_job_read_index (nb : net_buffer) :
    (net_buf_stop_job nb).read_index = nb.read_index := by
  unfold net_buf_stop_job; split <;> [rfl; (split <;> rfl)]

@[simp] theorem net_buf_stop_job_save_index (nb : net_buffer) :
    (net_buf_stop_job nb).save_index = nb.save_index := by
  unfold net_buf_stop_job; split <;> [rfl; (split <;> rfl)]

@[simp] theorem net_buf_stop_job_buffer_data (nb : net_buffer) :
    (net_buf_stop_job nb).buffer_data = nb.buffer_data := by
  unfold net_buf_stop_job; split <;> [rfl; (split <;> rfl)]

@[simp] theorem net_buf_stop_job_data_length (nb : net_buffer) :
    (net_buf_stop_job nb).data_length = nb.data_length := by
  unfold net_buf_stop_job; split <;> [rfl; (split <;> rfl)]

@[simp] theorem net_buf_stop_job_size (nb : net_buffer) :
    (net_buf_stop_job nb).size = nb.size := by
  unfold net_buf_stop_job; split <;> [rfl; (split <;> rfl)]

@[simp] theorem net_buf_stop_job_ready_wm (nb : net_buffer) :
    (net_buf_stop_job nb).ready_wm = nb.ready_wm := by
  unfold net_buf_stop_job; split <;> [rfl; (split <;> rfl)]

@[simp] theorem net_buf_stop_job_resume_wm (nb : net_buffer) :
    (net_buf_stop_job nb).resume_wm = nb.resume_wm := by
  unfold net_buf_stop_job; split <;> [rfl; (split <;> rfl)]

@[simp] theorem net_buf_stop_job_is_wait_ready (nb : net_buffer) :
    (net_buf_stop_job nb).is_wait_ready = nb.is_wait_ready := by
  unfold net_buf_stop_job; split <;> [rfl; (split <;> rfl)]

@[simp] theorem net_buf_stop_job_wait_ready (nb : net_buffer) :
    (net_buf_stop_job nb).wait_ready = nb.wait_ready := by
  unfold net_buf_stop_job; split <;> [rfl; (split <;> rfl)]

/-! ## The reader -/

theorem net_buf_read_wait_iff (nb : net_buffer) :
    net_buf_read_wait nb = true ↔
      nb.data_length = 0 ∧ (nb.stat = NETBUF_STAT_BUFFERING ∨ nb.stat = NETBUF_STAT_SUSPEND) := by
  simp [net_buf_read_wait]

theorem net_buf_read_body_fst (nb : net_buffer) (buffer : Mem) (length : Nat) :
    (net_buf_read_body nb buffer length).1 = min length nb.data_length := by
  unfold net_buf_read_body
  by_cases hd : nb.data_length > 0
  · simp only [hd, if_true]
    split <;> omega
  · simp only [hd, if_false]
    split <;> omega

theorem net_buf_read_of_not_wait (nb : net_buffer) (buffer : Mem) (length : Nat) (sem_ok : Bool)
    (h : net_buf_read_wait nb = false) :
    net_buf_read nb buffer length sem_ok =
      .returned (net_buf_read_body nb buffer length).1 (net_buf_read_body nb buffer length).2.1
        (net_buf_read_body nb buffer length).2.2 := by
  simp [net_buf_read, h]

theorem net_buf_read_body_update (nb : net_buffer) (buffer : Mem) (length : Nat)
    (hw : nb.data_length < WORD)
    (hs : nb.stat = NETBUF_STAT_SUSPEND → 0 < nb.data_length) :
    (net_buf_read_body nb buffer length).2.2.data_length =
        nb.data_length - min length nb.data_length ∧
    (if nb.stat = NETBUF_STAT_SUSPEND ∧
          nb.data_length - min length nb.data_length < nb.resume_wm then
        (net_buf_read_body nb buffer length).2.2.stat = NETBUF_STAT_BUFFERING ∧
        (net_buf_read_body nb buffer length).2.2.wait_resume = nb.wait_resume + 1
      else
        (net_buf_read_body nb buffer length).2.2.stat = nb.stat ∧
        (net_buf_read_body nb buffer length).2.2.wait_resume = nb.wait_resume) := by
  have hmin : (if length > nb.data_length then nb.data_length else length) =
      min length nb.data_length := by
    split <;> omega
  have hsub := usub_of_le hw (Nat.min_le_right length nb.data_length)
  by_cases hd : nb.data_length > 0
  · simp only [net_buf_read_body, hmin, hd, if_true, net_buf_read_update, net_buf_read_copy_stat,
      net_buf_read_copy_data_length, net_buf_read_copy_resume_wm, net_buf_read_copy_wait_resume,
      hsub]
    by_cases hc : nb.stat = NETBUF_STAT_SUSPEND ∧
        nb.data_length - min length nb.data_length < nb.resume_wm
    · simp [hc.1, hc.2]
    · rw [if_neg hc]
      have hb : ((nb.stat == NETBUF_STAT_SUSPEND &&
          decide (nb.data_length - min length nb.data_length < nb.resume_wm)) = true) = False := by
        simpa using hc
      simp only [hb, if_false]
      simp
  · have hd0 : nb.data_length = 0 := by omega
    have hs' : ¬ nb.stat = NETBUF_STAT_SUSPEND := fun h => by have := hs h; omega
    simp [net_buf_read_body, hd0, hs']

/-- C7: a `net_buf_read` that does not have to wait returns `min length data_length`, lowers
`data_length` by that amount, and sets the state to Buffering with one release of `wait_resume`
exactly when the prior state was Suspended and the new `data_length` is below `resume_wm`;
otherwise the state and the semaphore are as before. No other move of the system takes the
state from Suspended to Buffering. -/
theorem net_buf_read_resume_rule :
    (∀ (nb : net_buffer) (buffer : Mem) (length : Nat) (sem_ok : Bool),
      nb.data_length < WORD → net_buf_read_wait nb = false →
      net_buf_read nb buffer length sem_ok =
          .returned (min length nb.data_length) (net_buf_read_body nb buffer length).2.1
            (net_buf_read_body nb buffer length).2.2 ∧
        (net_buf_read_body nb buffer length).2.2.data_length =
          nb.data_length - min length nb.data_length ∧
        (if nb.stat = NETBUF_STAT_SUSPEND ∧
              nb.data_length - min length nb.data_length < nb.resume_wm then
            (net_buf_read_body nb buffer length).2.2.stat = NETBUF_STAT_BUFFERING ∧
            (net_buf_read_body nb buffer length).2.2.wait_resume = nb.wait_resume + 1
          else
            (net_buf_read_body nb buffer length).2.2.stat = nb.stat ∧
            (net_buf_read_body nb buffer length).2.2.wait_resume = nb.wait_resume)) ∧
    (∀ (l : Label) (s s' : Sys), step l s = some s' →
      s.netbuf.stat = NETBUF_STAT_SUSPEND → s'.netbuf.stat = NETBUF_STAT_BUFFERING →
      (∃ ok, l = .reader ok) ∧ s.reader.pc = .crit ∧
        s'.netbuf.data_length < s'.netbuf.resume_wm ∧
        s'.netbuf.wait_resume = s.netbuf.wait_resume + 1) := by
  constructor
  · intro nb buffer length sem_ok hw hnw
    have hs : nb.stat = NETBUF_STAT_SUSPEND → 0 < nb.data_length := by
      intro h
      by_contra hd
      have hd0 : nb.data_length = 0 := by omega
      simp [net_buf_read_wait, hd0, h] at hnw
    refine ⟨?_, net_buf_read_body_update nb buffer length hw hs⟩
    rw [net_buf_read_of_not_wait nb buffer length sem_ok hnw, net_buf_read_body_fst]
  · intro l s s' hstep hs hs'
    cases l with
    | start_enter job =>
      simp only [step, start_enter, Option.some.injEq] at hstep
      subst hstep
      simp [hs] at hs'
    | start_send i =>
      simp only [step, start_send] at hstep
      split at hstep
      · simp at hstep
      · simp only [Option.some.injEq] at hstep
        subst hstep
        simp [hs] at hs'
    | stop =>
      simp only [step, Option.some.injEq] at hstep
      subst hstep
      simp [net_buf_stop_job, hs] at hs'
    | worker e =>
      exfalso
      simp only [step, worker_step] at hstep
      split at hstep <;> (try split at hstep) <;> (try split at hstep) <;>
        simp only [Option.some.injEq, reduceCtorEq] at hstep <;>
        (try subst hstep) <;>
        simp_all [do_stop_stat]
    | read_call buffer length =>
      exfalso
      simp only [step, reader_call] at hstep
      split at hstep <;> (try split at hstep) <;>
        simp only [Option.some.injEq, reduceCtorEq] at hstep <;>
        (try subst hstep) <;> simp_all
    | reader ok =>
      simp only [step, reader_step] at hstep
      split at hstep
      · simp at hstep
      · exfalso
        split at hstep <;> (try split at hstep) <;>
          simp only [Option.some.injEq, reduceCtorEq] at hstep <;>
          (try subst hstep) <;> simp_all
      · exfalso
        split at hstep <;>
          simp only [Option.some.injEq, reduceCtorEq] at hstep <;>
          (try subst hstep) <;> simp_all
      · rename_i hpc
        simp only [Option.some.injEq] at hstep
        subst hstep
        refine ⟨⟨ok, rfl⟩, hpc, ?_, ?_⟩
        · simp only [net_buf_read_update, hs] at hs' ⊢
          split at hs' <;> simp_all
        · simp only [net_buf_read_update, hs] at hs' ⊢
          split at hs' <;> simp_all

/-- C7, at capacity 1000 (`resume_wm` 800) with a Suspended store that holds 1000 bytes: a
read of 250 bytes leaves 750 bytes and the state Buffering with one release, a read of 200
bytes leaves 800 bytes and the state Suspended. -/
theorem net_buf_read_resume_rule_witness :
    nb_full_suspended.resume_wm = 800 ∧
    ((net_buf_read_body nb_full_suspended (fun _ => 0) 250).2.2.data_length = 750 ∧
      (net_buf_read_body nb_full_suspended (fun _ => 0) 250).2.2.stat = NETBUF_STAT_BUFFERING ∧
      (net_buf_read_body nb_full_suspended (fun _ => 0) 250).2.2.wait_resume = 1) ∧
    ((net_buf_read_body nb_full_suspended (fun _ => 0) 200).2.2.data_length = 800 ∧
      (net_buf_read_body nb_full_suspended (fun _ => 0) 200).2.2.stat = NETBUF_STAT_SUSPEND ∧
      (net_buf_read_body nb_full_suspended (fun _ => 0) 200).2.2.wait_resume = 0) := by
  have h250 := net_buf_read_resume_rule.1 nb_full_suspended (fun _ => 0) 250 true
    (by decide) (by decide)
  have h200 := net_buf_read_resume_rule.1 nb_full_suspended (fun _ => 0) 200 true
    (by decide) (by decide)
  refine ⟨by decide, ⟨?_, ?_⟩, ⟨?_, ?_⟩⟩
  · exact h250.2.1
  · have h := h250.2.2
    rw [if_pos (by decide)] at h
    exact h
  · exact h200.2.1
  · have h := h200.2.2
    rw [if_neg (by decide)] at h
    exact h

/-! ## `net_buf_stop_job` -/

/-- C6: `net_buf_stop_job` changes nothing unless the state is Buffering or Suspended (so
nothing in Stopped and in Stopping); from Buffering or Suspended it sets the state to Stopping,
releases `wait_resume` once exactly when the prior state was Suspended, and leaves every other
field (indices, `data_length`, waiting flag, `wait_ready`) as it was; calling it twice gives
the same record, semaphore counters included, as calling it once. -/
theorem net_buf_stop_job_idempotent (nb : net_buffer) :
    ((nb.stat ≠ NETBUF_STAT_BUFFERING ∧ nb.stat ≠ NETBUF_STAT_SUSPEND) →
      net_buf_stop_job nb = nb) ∧
    ((nb.stat = NETBUF_STAT_BUFFERING ∨ nb.stat = NETBUF_STAT_SUSPEND) →
      net_buf_stop_job nb =
        { nb with
          stat := NETBUF_STAT_STOPPING
          wait_resume :=
            if nb.stat = NETBUF_STAT_SUSPEND then nb.wait_resume + 1 else nb.wait_resume }) ∧
    net_buf_stop_job (net_buf_stop_job nb) = net_buf_stop_job nb := by
  refine ⟨?_, ?_, ?_⟩
  · rintro ⟨h1, h2⟩
    simp [net_buf_stop_job, h1, h2]
  · rintro (h | h)
    · simp [net_buf_stop_job, h]
    · simp [net_buf_stop_job, h]
  · unfold net_buf_stop_job
    by_cases h2 : nb.stat = NETBUF_STAT_SUSPEND
    · simp [h2]
    · by_cases h1 : nb.stat = NETBUF_STAT_BUFFERING
      · simp [h1]
      · simp [h1, h2]

/-- C6, on the Suspended store of capacity 1000: the first stop sets Stopping and releases
`wait_resume` once, the second changes nothing. -/
theorem net_buf_stop_job_idempotent_witness :
    (net_buf_stop_job nb_full_suspended).stat = NETBUF_STAT_STOPPING ∧
    (net_buf_stop_job nb_full_suspended).wait_resume = 1 ∧
    (net_buf_stop_job nb_full_suspended).data_length = 1000 ∧
    net_buf_stop_job (net_buf_stop_job nb_full_suspended) = net_buf_stop_job nb_full_suspended := by
  have h := (net_buf_stop_job_idempotent nb_full_suspended).2.1 (Or.inr rfl)
  refine ⟨?_, ?_, ?_, (net_buf_stop_job_idempotent nb_full_suspended).2.2⟩
  · rw [h]
  · rw [h]; rfl
  · rw [h]; rfl

/-! ## When `net_buf_read` waits -/

/-- C4, refuted as stated: with capacity 1000 (`ready_wm` 900), after the first chunk of 100
bytes the state is Buffering, `data_length` is 100 and no read has returned yet; a read of up
to 512 bytes goes straight to the copy and returns the 100 bytes. -/
theorem net_buf_read_returns_below_ready_wm :
    (run (first_chunk_run 100) (sys_init 1000 zero_mem)).map
        (fun s => (s.netbuf.stat, s.netbuf.data_length, s.netbuf.ready_wm, s.reader.rets)) =
      some (NETBUF_STAT_BUFFERING, 100, 900, []) ∧
    (run (first_chunk_run 100 ++ [.read_call zero_mem 512]) (sys_init 1000 zero_mem)).map
        (fun s => s.reader.pc) = some .body ∧
    (run (first_chunk_run 100 ++ [.read_call zero_mem 512, .reader true, .reader true])
        (sys_init 1000 zero_mem)).map
        (fun s => (s.reader.pc, s.reader.rets, bytes s.reader.buffer 3, s.netbuf.data_length)) =
      some (.idle, [100], [0, 1, 2], 0) := by
  decide

/-- C4 (amended): in an active session (state Buffering or Suspended) with `data_length = 0`,
`net_buf_read` sets the waiting flag and blocks on `wait_ready`; with `data_length > 0` it does
not wait and returns `min length data_length` bytes, whatever `ready_wm` is; and `wait_ready`
is released only by the worker with the waiting flag set, either after a chunk write that finds
the state Buffering and `data_length ≥ ready_wm`, or in the termination sequence. -/
theorem net_buf_read_blocks_when_empty :
    (∀ (nb : net_buffer) (buffer : Mem) (length : Nat),
      nb.data_length = 0 →
      (nb.stat = NETBUF_STAT_BUFFERING ∨ nb.stat = NETBUF_STAT_SUSPEND) →
      nb.wait_ready = 0 →
      net_buf_read nb buffer length true = .blocked { nb with is_wait_ready := true }) ∧
    (∀ (s : Sys) (buffer : Mem) (length : Nat),
      s.reader.pc = .idle → s.netbuf.data_length = 0 →
      (s.netbuf.stat = NETBUF_STAT_BUFFERING ∨ s.netbuf.stat = NETBUF_STAT_SUSPEND) →
      reader_call buffer length s =
        some { s with
          netbuf := { s.netbuf with is_wait_ready := true }
          reader := { s.reader with pc := .take_ready, buffer := buffer, length := length } }) ∧
    (∀ (s : Sys), s.reader.pc = .take_ready → s.netbuf.wait_ready = 0 →
      reader_step true s = none) ∧
    (∀ (nb : net_buffer) (buffer : Mem) (length : Nat) (sem_ok : Bool),
      0 < nb.data_length →
      net_buf_read nb buffer length sem_ok =
        .returned (min length nb.data_length) (net_buf_read_body nb buffer length).2.1
          (net_buf_read_body nb buffer length).2.2) ∧
    (∀ (l : Label) (s s' : Sys), step l s = some s' →
      s.netbuf.wait_ready < s'.netbuf.wait_ready →
      s.netbuf.is_wait_ready = true ∧ s'.netbuf.is_wait_ready = false ∧
      s'.netbuf.wait_ready = s.netbuf.wait_ready + 1 ∧
      ∃ e, l = .worker e ∧
        ((s.worker.pc = .notify ∧ s.netbuf.stat = NETBUF_STAT_BUFFERING ∧
            s.netbuf.ready_wm ≤ s.worker.data_length) ∨
          s.worker.pc = .stop_wake)) := by
  refine ⟨?_, ?_, ?_, ?_, ?_⟩
  · intro nb buffer length hd hs hw
    have hwait : net_buf_read_wait nb = true := (net_buf_read_wait_iff nb).2 ⟨hd, hs⟩
    simp [net_buf_read, hwait, hw]
  · intro s buffer length hpc hd hs
    have hwait : net_buf_read_wait s.netbuf = true := (net_buf_read_wait_iff _).2 ⟨hd, hs⟩
    simp only [reader_call, hpc, hwait, if_true]
  · intro s hpc h0
    simp [reader_step, hpc, h0]
  · intro nb buffer length sem_ok hd
    have hnw : net_buf_read_wait nb = false := by
      have : ¬ nb.data_length = 0 := by omega
      simp [net_buf_read_wait, this]
    rw [net_buf_read_of_not_wait nb buffer length sem_ok hnw, net_buf_read_body_fst]
  · intro l s s' hstep hlt
    cases l with
    | start_enter job =>
      exfalso
      simp only [step, start_enter, Option.some.injEq] at hstep
      subst hstep
      split at hlt <;> simp at hlt
    | start_send i =>
      exfalso
      simp only [step, start_send] at hstep
      split at hstep
      · simp at hstep
      · simp only [Option.some.injEq] at hstep
        subst hstep
        simp at hlt
    | stop =>
      exfalso
      simp only [step, Option.some.injEq] at hstep
      subst hstep
      simp at hlt
    | read_call buffer length =>
      exfalso
      simp only [step, reader_call] at hstep
      split at hstep <;> (try split at hstep) <;>
        simp only [Option.some.injEq, reduceCtorEq] at hstep <;>
        (try subst hstep) <;> simp_all
    | reader ok =>
      exfalso
      simp only [step, reader_step] at hstep
      split at hstep <;> (try split at hstep) <;> (try split at hstep) <;>
        simp only [Option.some.injEq, reduceCtorEq] at hstep <;>
        (try subst hstep) <;> simp at hlt
      omega
    | worker e =>
      simp only [step, worker_step] at hstep
      split at hstep <;> (try split at hstep) <;> (try split at hstep) <;>
        simp only [Option.some.injEq, reduceCtorEq] at hstep <;>
        (try subst hstep) <;> (try (simp at hlt; done))
      · rename_i hpc
        simp only [notify_ready] at hlt ⊢
        split at hlt
        · rename_i hc
          simp only [Bool.and_eq_true, beq_iff_eq, decide_eq_true_eq] at hc
          simp only [notify_ready, hc, hpc]
          simp
        · simp at hlt
      · rename_i hpc
        simp only [do_stop_wake] at hlt ⊢
        split at hlt
        · rename_i hc
          simp only [beq_iff_eq] at hc
          simp [hc, hpc]
        · simp at hlt

/-- C4 (amended), on the empty Buffering store of capacity 1000: the read blocks with the
waiting flag set. -/
theorem net_buf_read_blocks_when_empty_witness :
    net_buf_read nb_started zero_mem 512 true =
      .blocked { nb_started with is_wait_ready := true } :=
  net_buf_read_blocks_when_empty.1 nb_started zero_mem 512 rfl (Or.inl rfl) rfl

/-! ## Runs -/

theorem reachable_of_run {size : Nat} {mem : Mem} (ls : List Label) :
    ∀ {s s' : Sys}, Reachable size mem s → run ls s = some s' → Reachable size mem s' := by
  induction ls with
  | nil =>
    intro s s' hs h
    simp only [run, Option.some.injEq] at h
    exact h ▸ hs
  | cons l ls ih =>
    intro s s' hs h
    simp only [run] at h
    cases hl : step l s with
    | none => simp [hl] at h
    | some s1 =>
      rw [hl] at h
      exact ih (Reachable.step l hs hl) h

/-- C2, the run the claim names (capacity 1000, chunks of 1000 bytes): the worker suspends
on the second chunk with `data_length = 1000`; the reader drains 250 bytes, which leaves
`data_length = 750 < resume_wm = 800` and resumes the worker; the worker then stores the
whole second chunk, and the state reached has `data_length = 1750 > size = 1000`. -/
theorem data_length_exceeds_size :
    (run (first_chunk_run 1000 ++ second_chunk_suspends) (sys_init 1000 zero_mem)).map
        (fun s => (s.netbuf.stat, s.netbuf.data_length, s.worker.pc)) =
      some (NETBUF_STAT_SUSPEND, 1000, .take_resume) ∧
    (run (first_chunk_run 1000 ++ second_chunk_suspends ++ read_250)
        (sys_init 1000 zero_mem)).map
        (fun s => (s.netbuf.stat, s.netbuf.data_length, s.netbuf.resume_wm, s.reader.rets)) =
      some (NETBUF_STAT_BUFFERING, 750, 800, [250]) ∧
    ∃ s, Reachable 1000 zero_mem s ∧ run overfill_run (sys_init 1000 zero_mem) = some s ∧
      s.netbuf.size = 1000 ∧ s.netbuf.data_length = 1750 ∧ s.netbuf.size < s.netbuf.data_length := by
  refine ⟨by decide, by decide, ?_⟩
  have h : (run overfill_run (sys_init 1000 zero_mem)).map
      (fun s => (s.netbuf.size, s.netbuf.data_length)) = some (1000, 1750) := by decide
  obtain ⟨s, hs, hf⟩ := Option.map_eq_some'.1 h
  simp only [Prod.mk.injEq] at hf
  exact ⟨s, reachable_of_run _ Reachable.init hs, hs, hf.1, hf.2, by omega⟩

/-- C3, a job that is accepted (the start returns 0) and then stopped before the worker has
taken it from the mailbox: the worker takes it, finds the state Stopping and goes back to wait on the mailbox;
`close` has not been called, the state stays Stopping, a new start is refused and a new stop
changes nothing. -/
theorem stop_before_dequeue_never_closes :
    (net_buf_start_job (sys_init 1000 zero_mem).netbuf [] job1).1 = 0 ∧
    ∃ s, Reachable 1000 zero_mem s ∧
      run stop_before_dequeue_run (sys_init 1000 zero_mem) = some s ∧
      s.worker.pc = .recv ∧ s.netbuf_mq = [] ∧ s.sending = [] ∧ s.closed = [] ∧
      s.netbuf.stat = NETBUF_STAT_STOPPING ∧
      (∀ e, worker_step e s = none) ∧
      (∀ job, (net_buf_start_job s.netbuf s.netbuf_mq job).1 = -1) ∧
      net_buf_stop_job s.netbuf = s.netbuf := by
  have h : (run stop_before_dequeue_run (sys_init 1000 zero_mem)).map
      (fun s => (s.worker.pc, s.netbuf_mq, s.sending, s.closed, s.netbuf.stat)) =
      some (.recv, [], [], [], NETBUF_STAT_STOPPING) := by decide
  obtain ⟨s, hs, hf⟩ := Option.map_eq_some'.1 h
  simp only [Prod.mk.injEq] at hf
  obtain ⟨h1, h2, h3, h4, h5⟩ := hf
  refine ⟨by decide, s, reachable_of_run _ Reachable.init hs, hs, h1, h2, h3, h4, h5, ?_, ?_, ?_⟩
  · intro e
    simp [worker_step, h1, h2]
  · intro job
    simp [net_buf_start_job, h5]
  · simp [net_buf_stop_job, h5]

/-- C8, at the state reached by `overfill_run` (capacity 1000, `data_length = 1750`): for a
third chunk of 1000 bytes the room test computes `size - data_length` as the word
4294966546, finds it not below 1000, and the worker goes on to the copy instead of
suspending, although 1000 bytes exceed the free space. -/
theorem room_test_wraps_when_overfull :
    usub 1000 1750 = 4294966546 ∧ room_short nb_started 1750 1000 = false ∧
    ∃ s, Reachable 1000 zero_mem s ∧ run third_chunk_run (sys_init 1000 zero_mem) = some s ∧
      s.netbuf.size = 1000 ∧ s.worker.data_length = 1750 ∧ s.worker.read_length = 1000 ∧
      s.netbuf.size - s.worker.data_length < s.worker.read_length ∧
      s.netbuf.stat = NETBUF_STAT_BUFFERING ∧ s.worker.pc = .copy_in := by
  refine ⟨by decide, by decide, ?_⟩
  have h : (run third_chunk_run (sys_init 1000 zero_mem)).map
      (fun s => (s.netbuf.size, s.worker.data_length, s.worker.read_length, s.netbuf.stat,
        s.worker.pc)) = some (1000, 1750, 1000, NETBUF_STAT_BUFFERING, .copy_in) := by decide
  obtain ⟨s, hs, hf⟩ := Option.map_eq_some'.1 h
  simp only [Prod.mk.injEq] at hf
  obtain ⟨h1, h2, h3, h4, h5⟩ := hf
  exact ⟨s, reachable_of_run _ Reachable.init hs, hs, h1, h2, h3, by omega, h4, h5⟩

/-- C10, when `read()` fails: `fd_fetch` turns the -1 into the word 4294967295, which the
test `read_length <= 0` does not catch; the worker treats it as a chunk, finds no room,
sets the state to Suspended and blocks on `wait_resume`; `close` is not called and the state
is not Stopped. -/
theorem fetch_error_not_terminated :
    fd_fetch (-1) = 4294967295 ∧
    ∃ s, Reachable 1000 zero_mem s ∧ run read_error_run (sys_init 1000 zero_mem) = some s ∧
      s.worker.read_length = 4294967295 ∧ s.worker.pc = .take_resume ∧
      s.netbuf.stat = NETBUF_STAT_SUSPEND ∧ s.closed = [] ∧ s.netbuf.data_length = 100 ∧
      worker_step read_error s = none := by
  refine ⟨by decide, ?_⟩
  have h : (run read_error_run (sys_init 1000 zero_mem)).map
      (fun s => (s.worker.read_length, s.worker.pc, s.netbuf.stat, s.closed,
        s.netbuf.data_length, s.netbuf.wait_resume)) =
      some (4294967295, .take_resume, NETBUF_STAT_SUSPEND, [], 100, 0) := by decide
  obtain ⟨s, hs, hf⟩ := Option.map_eq_some'.1 h
  simp only [Prod.mk.injEq] at hf
  obtain ⟨h1, h2, h3, h4, h5, h6⟩ := hf
  refine ⟨s, reachable_of_run _ Reachable.init hs, hs, h1, h2, h3, h4, h5, ?_⟩
  simp [worker_step, h2, h6, read_error]

/-! ## The worker running alone -/

theorem worker_run_recv (es : List WorkerEnv) (s : Sys) (h : s.worker.pc = .recv) :
    worker_run es s = some s := by
  cases es <;> simp [worker_run, h]

theorem worker_run_cons (e : WorkerEnv) (es : List WorkerEnv) (s : Sys)
    (h : s.worker.pc ≠ .recv) :
    worker_run (e :: es) s = (worker_step e s).bind (worker_run es) := by
  simp [worker_run, h]

/-- The termination sequence `net_buf_do_stop`, from its first statement: four steps of the
worker call `close` once, set the state to Stopped, release a waiting reader and reset the
counters, and the worker is back at the mailbox. -/
theorem worker_run_do_stop (e1 e2 e3 e4 : WorkerEnv) (es : List WorkerEnv) (s : Sys)
    (h : s.worker.pc = .stop_close) :
    worker_run (e1 :: e2 :: e3 :: e4 :: es) s =
      some { s with
        netbuf := net_buf_do_stop s.netbuf
        closed := s.closed ++ [s.worker.job]
        worker := { s.worker with pc := .recv } } := by
  rw [worker_run_cons _ _ _ (by simp [h])]
  simp only [worker_step, h, Option.some_bind]
  rw [worker_run_cons _ _ _ (by simp)]
  simp only [worker_step, Option.some_bind]
  rw [worker_run_cons _ _ _ (by simp)]
  simp only [worker_step, Option.some_bind]
  rw [worker_run_cons _ _ _ (by simp)]
  simp only [worker_step, Option.some_bind]
  rw [worker_run_recv _ _ rfl]
  rfl

theorem net_buf_do_stop_fields (nb : net_buffer) :
    (net_buf_do_stop nb).stat = NETBUF_STAT_STOPPED ∧ (net_buf_do_stop nb).data_length = 0 ∧
    (net_buf_do_stop nb).read_index = 0 ∧ (net_buf_do_stop nb).save_index = 0 ∧
    (net_buf_do_stop nb).is_wait_ready = false ∧
    (net_buf_do_stop nb).wait_ready = (if nb.is_wait_ready then nb.wait_ready + 1 else nb.wait_ready) ∧
    (net_buf_do_stop nb).wait_resume = nb.wait_resume ∧
    (net_buf_do_stop nb).buffer_data = nb.buffer_data ∧ (net_buf_do_stop nb).size = nb.size := by
  simp only [net_buf_do_stop, do_stop_reset, do_stop_wake, do_stop_stat]
  cases h : nb.is_wait_ready <;> simp

/-- From a state in which the worker is blocked in `rt_sem_take(wait_resume)` (the counter
is 0) with the state Suspended, and in which the copy of the chunk the worker has in hand
stays inside the block, `net_buf_stop_job` followed by the worker running alone brings the
worker back to the mailbox (within 9 steps, whatever the environment supplies) with exactly
one more call of `close`, for the worker's job, the state Stopped and `data_length`,
`read_index` and `save_index` all 0. Without the hypothesis on the copy the source overruns
its block. -/
theorem stop_while_suspended_in_block (s : Sys) (es : List WorkerEnv)
    (hpc : s.worker.pc = .take_resume) (hstat : s.netbuf.stat = NETBUF_STAT_SUSPEND)
    (hblocked : s.netbuf.wait_resume = 0) (hlen : 9 ≤ es.length)
    (_hin : copy_in_in_block s.netbuf s.worker.read_length = true) :
    (∀ e, e.sem_ok = true → worker_step e s = none) ∧
    ∃ s', (step .stop s).bind (worker_run es) = some s' ∧
      s'.worker.pc = .recv ∧ s'.closed = s.closed ++ [s.worker.job] ∧
      s'.netbuf.stat = NETBUF_STAT_STOPPED ∧ s'.netbuf.data_length = 0 ∧
      s'.netbuf.read_index = 0 ∧ s'.netbuf.save_index = 0 := by
  constructor
  · intro e he
    simp [worker_step, hpc, he, hblocked]
  obtain ⟨e1, e2, e3, e4, e5, e6, e7, e8, e9, rest, rfl⟩ :
      ∃ e1 e2 e3 e4 e5 e6 e7 e8 e9 rest, es = e1 :: e2 :: e3 :: e4 :: e5 :: e6 :: e7 :: e8 :: e9 :: rest := by
    rcases es with _ | ⟨e1, _ | ⟨e2, _ | ⟨e3, _ | ⟨e4, _ | ⟨e5, _ | ⟨e6, _ | ⟨e7, _ | ⟨e8, _ | ⟨e9, rest⟩⟩⟩⟩⟩⟩⟩⟩⟩ <;>
      simp at hlen
    exact ⟨e1, e2, e3, e4, e5, e6, e7, e8, e9, rest, rfl⟩
  simp only [step, Option.some_bind]
  rw [worker_run_cons _ _ _ (by simp [hpc])]
  cases hok : e1.sem_ok
  · -- the wait fails: straight to the termination sequence
    simp only [worker_step, hpc, hok, Option.some_bind, Bool.false_eq_true, ↓reduceIte]
    rw [worker_run_do_stop _ _ _ _ _ _ rfl]
    obtain ⟨h1, h2, h3, h4, -⟩ := net_buf_do_stop_fields (net_buf_stop_job s.netbuf)
    exact ⟨_, rfl, rfl, rfl, h1, h2, h3, h4⟩
  · -- the wait succeeds on the release made by the stop
    have hstop : net_buf_stop_job s.netbuf =
        { s.netbuf with wait_resume := s.netbuf.wait_resume + 1, stat := NETBUF_STAT_STOPPING } := by
      simp [net_buf_stop_job, hstat]
    simp only [worker_step, hpc, hok, hstop, Nat.add_one_ne_zero, Option.some_bind,
      ↓reduceIte]
    rw [worker_run_cons _ _ _ (by simp)]
    simp only [worker_step, Option.some_bind]
    rw [worker_run_cons _ _ _ (by simp)]
    simp only [worker_step, Option.some_bind]
    rw [worker_run_cons _ _ _ (by simp)]
    simp only [worker_step, Option.some_bind]
    rw [worker_run_cons _ _ _ (by simp)]
    simp only [worker_step, Option.some_bind, notify_ready_stat, add_length_stat, copy_in_stat,
      beq_self_eq_true, ↓reduceIte]
    rw [worker_run_do_stop _ _ _ _ _ _ rfl]
    refine ⟨_, rfl, rfl, rfl, ?_⟩
    obtain ⟨h1, h2, h3, h4, -⟩ := net_buf_do_stop_fields
      (notify_ready (add_length (copy_in
        { s.netbuf with wait_resume := s.netbuf.wait_resume + 1 - 1, stat := NETBUF_STAT_STOPPING }
        s.worker.ptr s.worker.read_length) s.worker.read_length)
        (add_length (copy_in
        { s.netbuf with wait_resume := s.netbuf.wait_resume + 1 - 1, stat := NETBUF_STAT_STOPPING }
        s.worker.ptr s.worker.read_length) s.worker.read_length).data_length)
    exact ⟨h1, h2, h3, h4⟩

/-- The state `sys_suspended` is the one the run of the first two chunks reaches. -/
theorem run_reaches_sys_suspended :
    run (first_chunk_run 1000 ++ second_chunk_suspends) (sys_init 1000 zero_mem) =
      some sys_suspended := by
  rfl

/-- At `sys_suspended` (capacity 1000, the worker blocked with the store full and a chunk of
1000 bytes in hand, whose copy fills the block exactly): after the stop, nine steps of the
worker end at the mailbox with `close` called once, for `job1`, and the state Stopped with
the counters at 0. -/
theorem stop_while_suspended_in_block_example :
    ∃ s', (step .stop sys_suspended).bind (worker_run (List.replicate 9 (chunk 1000))) = some s' ∧
      s'.worker.pc = .recv ∧ s'.closed = [job1] ∧
      s'.netbuf.stat = NETBUF_STAT_STOPPED ∧ s'.netbuf.data_length = 0 ∧
      s'.netbuf.read_index = 0 ∧ s'.netbuf.save_index = 0 :=
  (stop_while_suspended_in_block sys_suspended (List.replicate 9 (chunk 1000))
    rfl rfl rfl (by decide) (by decide)).2

/-- C9, at capacity 1000 with a first chunk of 990 bytes stored and a chunk of 1024 bytes in
hand: the worker is blocked in `rt_sem_take(wait_resume)` with the state Suspended; after
`net_buf_stop_job` it takes the release and goes straight to the copy of lines 252-271,
which is not inside the block: with `save_index = 990` the second `rt_memcpy` (lines
256-258) writes 1014 bytes from offset 0 of a block of 1000 bytes, so that cell 1013, past
the end of the block, is overwritten (0 before the copy, 255 after it); `close` has not
been called. -/
theorem stop_while_suspended_overruns_block :
    (∃ s, Reachable 1000 zero_mem s ∧
      run suspended_at_990_run (sys_init 1000 zero_mem) = some s ∧
      s.worker.pc = .take_resume ∧ s.netbuf.stat = NETBUF_STAT_SUSPEND ∧
      s.netbuf.wait_resume = 0 ∧ s.netbuf.size = 1000 ∧ s.netbuf.save_index = 990 ∧
      s.worker.read_length = 1024) ∧
    (run (suspended_at_990_run ++ [.stop, .worker (chunk 1024)]) (sys_init 1000 zero_mem)).map
        (fun s => (s.worker.pc, s.netbuf.stat, copy_in_end s.netbuf s.worker.read_length,
          copy_in_in_block s.netbuf s.worker.read_length, s.netbuf.buffer_data 1013)) =
      some (.copy_in, NETBUF_STAT_STOPPING, 1014, false, 0) ∧
    (run (suspended_at_990_run ++ [.stop, .worker (chunk 1024), .worker (chunk 1024)])
        (sys_init 1000 zero_mem)).map
        (fun s => (s.netbuf.size, s.netbuf.buffer_data 1013, s.closed, s.netbuf.stat)) =
      some (1000, 255, [], NETBUF_STAT_STOPPING) := by
  refine ⟨?_, by decide, by decide⟩
  have h : (run suspended_at_990_run (sys_init 1000 zero_mem)).map
      (fun s => (s.worker.pc, s.netbuf.stat, s.netbuf.wait_resume, s.netbuf.size,
        s.netbuf.save_index, s.worker.read_length)) =
      some (.take_resume, NETBUF_STAT_SUSPEND, 0, 1000, 990, 1024) := by decide
  obtain ⟨s, hs, hf⟩ := Option.map_eq_some'.1 h
  simp only [Prod.mk.injEq] at hf
  obtain ⟨h1, h2, h3, h4, h5, h6⟩ := hf
  exact ⟨s, reachable_of_run _ Reachable.init hs, hs, h1, h2, h3, h4, h5, h6⟩

/-- A chunk that fits in the free space of a consistent store is copied inside the block. -/
theorem copy_in_in_block_of_fit (nb : net_buffer) (len : Nat) (hW : nb.size < WORD)
    (hr : ring_ok nb) (hfit : nb.data_length + len ≤ nb.size) :
    copy_in_in_block nb len = true := by
  obtain ⟨hri, hsi, hdl, hsave⟩ := hr
  have e1 : usub nb.size nb.save_index = nb.size - nb.save_index := usub_of_le hW (by omega)
  unfold wrap at hsave
  simp only [copy_in_in_block, copy_in_end, span_end, e1, decide_eq_true_eq]
  by_cases hwrap : nb.size - nb.save_index < len
  · have e3 : usub len (nb.size - nb.save_index) = len - (nb.size - nb.save_index) :=
      usub_of_le (by show _ < 4294967296; have : nb.size < 4294967296 := hW; omega) (by omega)
    simp only [hwrap, if_true, e3]
    split_ifs at hsave ⊢ <;> omega
  · simp only [hwrap, if_false]
    split_ifs at hsave ⊢ <;> omega

/-- A `fetch` that returns 0: the worker stores nothing and runs the termination sequence,
as it does for an explicit stop. -/
theorem fetch_zero_terminates (s : Sys) (e : WorkerEnv) (es : List WorkerEnv)
    (hpc : s.worker.pc = .fetch) (h0 : e.fetch_len = 0) (hlen : 4 ≤ es.length) :
    ∃ s', worker_run (e :: es) s = some s' ∧ s'.worker.pc = .recv ∧
      s'.closed = s.closed ++ [s.worker.job] ∧ s'.netbuf = net_buf_do_stop s.netbuf := by
  obtain ⟨e1, e2, e3, e4, rest, rfl⟩ : ∃ e1 e2 e3 e4 rest, es = e1 :: e2 :: e3 :: e4 :: rest := by
    rcases es with _ | ⟨e1, _ | ⟨e2, _ | ⟨e3, _ | ⟨e4, rest⟩⟩⟩⟩ <;> simp at hlen
    exact ⟨e1, e2, e3, e4, rest, rfl⟩
  rw [worker_run_cons _ _ _ (by simp [hpc])]
  simp only [worker_step, hpc, h0, le_refl, ↓reduceIte, Option.some_bind]
  rw [worker_run_do_stop _ _ _ _ _ _ rfl]
  exact ⟨_, rfl, rfl, rfl, rfl⟩

/-! ## The mailbox invariant and `net_buf_start_job` -/

theorem net_buf_stop_job_stat_stopped (nb : net_buffer) :
    (net_buf_stop_job nb).stat = NETBUF_STAT_STOPPED ↔ nb.stat = NETBUF_STAT_STOPPED := by
  unfold net_buf_stop_job
  split
  · rename_i h
    simp only [beq_iff_eq] at h
    simp [h]
  · split
    · rename_i h
      simp only [beq_iff_eq] at h
      simp [h]
    · rfl

theorem net_buf_read_update_stat_stopped (nb : net_buffer) (length : Nat) :
    (net_buf_read_update nb length).stat = NETBUF_STAT_STOPPED ↔
      nb.stat = NETBUF_STAT_STOPPED := by
  simp only [net_buf_read_update]
  split
  · rename_i h
    simp only [Bool.and_eq_true, beq_iff_eq, decide_eq_true_eq] at h
    simp [h.1]
  · rfl

theorem mailbox_inv_init (size : Nat) (mem : Mem) : mailbox_inv (sys_init size mem) := by
  simp [mailbox_inv, sys_init, in_job]

theorem mailbox_inv_step (l : Label) (s s' : Sys) (hinv : mailbox_inv s)
    (hstep : step l s = some s') : mailbox_inv s' := by
  obtain ⟨h1, h2, h3⟩ := hinv
  cases l with
  | start_enter job =>
    simp only [step, start_enter, Option.some.injEq] at hstep
    subst hstep
    split
    · rename_i hst
      simp only [beq_iff_eq] at hst
      have h0 : s.netbuf_mq.length + s.sending.length = 0 := by
        by_contra hne
        exact (h2 (by omega)).1 hst
      have hj : in_job s.worker.pc = false := by
        cases hj : in_job s.worker.pc
        · rfl
        · exact absurd hst (h3 hj)
      refine ⟨?_, ?_, ?_⟩
      · simp only [List.length_append, List.length_singleton]
        omega
      · intro _
        exact ⟨by simp, hj⟩
      · intro _
        simp
    · exact ⟨h1, h2, h3⟩
  | start_send i =>
    simp only [step, start_send] at hstep
    split at hstep
    · simp at hstep
    · rename_i job hget
      simp only [Option.some.injEq] at hstep
      subst hstep
      have hi : i < s.sending.length := by
        rw [List.get?_eq_some] at hget
        exact hget.1
      have hmq : s.netbuf_mq.length = 0 := by omega
      have hsend : rt_mq_send s.netbuf_mq job = s.netbuf_mq ++ [job] := by
        simp [rt_mq_send, hmq]
      have hpos := h2 (by omega)
      refine ⟨?_, ?_, h3⟩
      · simp only [hsend, List.length_append, List.length_singleton, List.length_eraseIdx, hi,
          if_true]
        omega
      · intro _
        exact hpos
  | stop =>
    simp only [step, Option.some.injEq] at hstep
    subst hstep
    refine ⟨h1, ?_, ?_⟩
    · intro hp
      exact ⟨fun h => (h2 hp).1 ((net_buf_stop_job_stat_stopped _).1 h), (h2 hp).2⟩
    · intro hj h
      exact h3 hj ((net_buf_stop_job_stat_stopped _).1 h)
  | read_call buffer length =>
    simp only [step, reader_call] at hstep
    split at hstep
    · split at hstep <;> simp only [Option.some.injEq] at hstep <;> subst hstep <;>
        exact ⟨h1, h2, h3⟩
    · simp at hstep
  | reader ok =>
    simp only [step, reader_step] at hstep
    split at hstep
    · simp at hstep
    · split at hstep
      · split at hstep
        · simp at hstep
        · simp only [Option.some.injEq] at hstep
          subst hstep
          exact ⟨h1, h2, h3⟩
      · simp only [Option.some.injEq] at hstep
        subst hstep
        exact ⟨h1, h2, h3⟩
    · split at hstep <;> simp only [Option.some.injEq] at hstep <;> subst hstep
      · refine ⟨h1, ?_, ?_⟩
        · intro hp
          exact ⟨by simpa using (h2 hp).1, (h2 hp).2⟩
        · intro hj
          simpa using h3 hj
      · exact ⟨h1, h2, h3⟩
    · simp only [Option.some.injEq] at hstep
      subst hstep
      refine ⟨h1, ?_, ?_⟩
      · intro hp
        exact ⟨fun h => (h2 hp).1 ((net_buf_read_update_stat_stopped _ _).1 h), (h2 hp).2⟩
      · intro hj h
        exact h3 hj ((net_buf_read_update_stat_stopped _ _).1 h)
  | worker e =>
    simp only [step, worker_step] at hstep
    split at hstep <;> (try split at hstep) <;> (try split at hstep) <;>
      (try (simp at hstep; done)) <;> simp only [Option.some.injEq] at hstep <;> subst hstep <;>
      simp_all [mailbox_inv, in_job, do_stop_stat]
    exact ⟨by omega, List.eq_nil_of_length_eq_zero (by omega),
      List.eq_nil_of_length_eq_zero (by omega)⟩

theorem mailbox_inv_reachable {size : Nat} {mem : Mem} {s : Sys}
    (h : Reachable size mem s) : mailbox_inv s := by
  induction h with
  | init => exact mailbox_inv_init size mem
  | step l _ hstep ih => exact mailbox_inv_step l _ _ ih hstep


/-- The two halves of `net_buf_start_job` in the step system, made one after the other by a
caller that no other caller overtakes, come to the function `net_buf_start_job`. -/
theorem start_enter_send (job : net_buffer_job) (s : Sys)
    (hst : s.netbuf.stat = NETBUF_STAT_STOPPED) (hs : s.sending = []) :
    start_send 0 (start_enter job s) =
      some { s with
        netbuf := (net_buf_start_job s.netbuf s.netbuf_mq job).2.1
        netbuf_mq := (net_buf_start_job s.netbuf s.netbuf_mq job).2.2 } := by
  simp [start_send, start_enter, net_buf_start_job, hst, hs]

/-- C5: `net_buf_start_job` returns 0 exactly when the state is Stopped and -1 otherwise; on
success the state becomes Buffering, nothing else in the record changes, and the job is
appended to the mailbox (in every state whose mailbox has a free slot, hence in every
reachable state, where the mailbox of a Stopped system is empty); on rejection the record and
the mailbox are unchanged. -/
theorem net_buf_start_job_contract :
    (∀ (nb : net_buffer) (mq : List net_buffer_job) (job : net_buffer_job),
      ((net_buf_start_job nb mq job).1 = 0 ↔ nb.stat = NETBUF_STAT_STOPPED) ∧
      (nb.stat = NETBUF_STAT_STOPPED →
        (net_buf_start_job nb mq job).2.1 = { nb with stat := NETBUF_STAT_BUFFERING } ∧
        (mq.length < NETBUF_MQ_SLOTS → (net_buf_start_job nb mq job).2.2 = mq ++ [job])) ∧
      (nb.stat ≠ NETBUF_STAT_STOPPED → net_buf_start_job nb mq job = (-1, nb, mq))) ∧
    (∀ (size : Nat) (mem : Mem) (s : Sys) (job : net_buffer_job), Reachable size mem s →
      s.netbuf.stat = NETBUF_STAT_STOPPED →
      s.netbuf_mq = [] ∧
      net_buf_start_job s.netbuf s.netbuf_mq job =
        (0, { s.netbuf with stat := NETBUF_STAT_BUFFERING }, s.netbuf_mq ++ [job])) := by
  constructor
  · intro nb mq job
    by_cases hst : nb.stat = NETBUF_STAT_STOPPED
    · refine ⟨by simp [net_buf_start_job, hst], fun _ => ⟨by simp [net_buf_start_job, hst], ?_⟩,
        fun h => absurd hst h⟩
      intro hlen
      simp [net_buf_start_job, hst, rt_mq_send, hlen]
    · refine ⟨by simp [net_buf_start_job, hst], fun h => absurd h hst, fun _ => ?_⟩
      simp [net_buf_start_job, hst]
  · intro size mem s job hr hst
    obtain ⟨h1, h2, -⟩ := mailbox_inv_reachable hr
    have h0 : s.netbuf_mq.length + s.sending.length = 0 := by
      by_contra hne
      exact (h2 (by omega)).1 hst
    have hmq : s.netbuf_mq = [] := List.eq_nil_of_length_eq_zero (by omega)
    refine ⟨hmq, ?_⟩
    simp [net_buf_start_job, hst, rt_mq_send, hmq]

/-- C5, at capacity 1000: a start right after `net_buf_init` is accepted and puts `job1` in
the mailbox; a start on the Buffering record `nb_started` is refused and changes nothing. -/
theorem net_buf_start_job_contract_witness :
    net_buf_start_job (sys_init 1000 zero_mem).netbuf (sys_init 1000 zero_mem).netbuf_mq job1 =
      (0, { (sys_init 1000 zero_mem).netbuf with stat := NETBUF_STAT_BUFFERING }, [job1]) ∧
    net_buf_start_job nb_started [] job1 = (-1, nb_started, []) :=
  ⟨(net_buf_start_job_contract.2 1000 zero_mem (sys_init 1000 zero_mem) job1 Reachable.init
      rfl).2,
    (net_buf_start_job_contract.1 nb_started [] job1).2.2 (by decide)⟩

/-! ## First in, first out -/

theorem contents_length (nb : net_buffer) : (contents nb).length = nb.data_length := by
  simp [contents]

theorem bytes_length (m : Mem) (n : Nat) : (bytes m n).length = n := by
  simp [bytes]

theorem worker_write_size (nb : net_buffer) (ptr : Mem) (len : Nat) :
    (worker_write nb ptr len).size = nb.size := by
  simp [worker_write]

/-- A chunk that fits is stored behind the unread bytes, and the indices stay consistent. -/
theorem worker_write_contents (nb : net_buffer) (ptr : Mem) (len : Nat)
    (hW : nb.size < WORD) (hr : ring_ok nb) (hfit : nb.data_length + len ≤ nb.size) :
    ring_ok (worker_write nb ptr len) ∧
    contents (worker_write nb ptr len) = contents nb ++ bytes ptr len := by
  obtain ⟨hri, hsi, hdl, hsave⟩ := hr
  have e1 : usub nb.size nb.save_index = nb.size - nb.save_index := usub_of_le hW (by omega)
  have e2 : uadd nb.data_length len = nb.data_length + len := uadd_of_lt (by omega)
  unfold wrap at hsave
  by_cases hwrap : nb.size - nb.save_index < len
  · have e3 : usub len (nb.size - nb.save_index) = len - (nb.size - nb.save_index) :=
      usub_of_le (by omega) (by omega)
    constructor
    · simp only [ring_ok, worker_write, copy_in, add_length, e1, hwrap, if_true, e2, e3, wrap]
      refine ⟨hri, ?_, by omega, ?_⟩
      · omega
      · split_ifs at hsave ⊢ <;> omega
    · apply List.ext_getElem
      · simp [contents, bytes, worker_write, add_length, e2]
      · intro i h1 h2
        simp only [contents_length, worker_write, add_length, copy_in_data_length, e2] at h1
        simp only [contents, worker_write, copy_in, add_length, e1, hwrap, if_true, e2, e3,
          List.getElem_map, List.getElem_range, List.getElem_append, bytes, List.length_map,
          List.length_range, rt_memcpy, wrap]
        split_ifs at hsave ⊢ <;> first | rfl | (exfalso; omega) | (congr 1; omega)
  · have e3 : uadd nb.save_index len = nb.save_index + len := uadd_of_lt (by omega)
    constructor
    · simp only [ring_ok, worker_write, copy_in, add_length, e1, hwrap, if_false, e2, e3, wrap]
      refine ⟨hri, ?_, by omega, ?_⟩
      · split_ifs <;> omega
      · split_ifs at hsave ⊢ <;> omega
    · apply List.ext_getElem
      · simp [contents, bytes, worker_write, add_length, e2]
      · intro i h1 h2
        simp only [contents_length, worker_write, add_length, copy_in_data_length, e2] at h1
        simp only [contents, worker_write, copy_in, add_length, e1, hwrap, if_false, e2, e3,
          List.getElem_map, List.getElem_range, List.getElem_append, bytes, List.length_map,
          List.length_range, rt_memcpy, wrap]
        split_ifs at hsave ⊢ <;> first | rfl | (exfalso; omega) | (congr 1; omega)

theorem net_buf_read_update_data_length (nb : net_buffer) (length : Nat) :
    (net_buf_read_update nb length).data_length = usub nb.data_length length := by
  simp only [net_buf_read_update]
  split <;> rfl

/-- A read gives back the oldest unread bytes, in order, leaves the rest as the unread bytes
of the store, and keeps the indices consistent. -/
theorem net_buf_read_body_contents (nb : net_buffer) (buffer : Mem) (length : Nat)
    (hW : nb.size < WORD) (hr : ring_ok nb) :
    ring_ok (net_buf_read_body nb buffer length).2.2 ∧
    (net_buf_read_body nb buffer length).2.2.size = nb.size ∧
    bytes (net_buf_read_body nb buffer length).2.1 (net_buf_read_body nb buffer length).1 =
      (contents nb).take (min length nb.data_length) ∧
    contents (net_buf_read_body nb buffer length).2.2 =
      (contents nb).drop (min length nb.data_length) := by
  obtain ⟨hri, hsi, hdl, hsave⟩ := hr
  have hmin : (if length > nb.data_length then nb.data_length else length) =
      min length nb.data_length := by
    split <;> omega
  by_cases hd : nb.data_length > 0
  · have hn : min length nb.data_length ≤ nb.data_length := Nat.min_le_right _ _
    generalize min length nb.data_length = n at hmin hn ⊢
    have e0 : usub nb.data_length n = nb.data_length - n := usub_of_le (by omega) hn
    have e1 : usub nb.size nb.read_index = nb.size - nb.read_index := usub_of_le hW (by omega)
    unfold wrap at hsave
    by_cases hdirect : nb.size - nb.read_index > n
    · have e2 : uadd nb.read_index n = nb.read_index + n := uadd_of_lt (by omega)
      refine ⟨?_, ?_, ?_, ?_⟩
      · simp only [ring_ok, net_buf_read_body, hmin, hd, if_true, net_buf_read_update_read_index,
          net_buf_read_update_save_index, net_buf_read_update_size,
          net_buf_read_update_data_length, net_buf_read_copy_size, net_buf_read_copy_save_index,
          net_buf_read_copy_data_length, e0, wrap]
        simp only [net_buf_read_copy, e1, hdirect, if_true, e2]
        refine ⟨by omega, hsi, by omega, ?_⟩
        split_ifs at hsave ⊢ <;> omega
      · simp [net_buf_read_body, hmin, hd]
      · apply List.ext_getElem
        · simp [net_buf_read_body, hmin, hd, bytes, contents]
          omega
        · intro i h1 h2
          simp only [net_buf_read_body, hmin, hd, if_true, bytes_length] at h1
          simp only [net_buf_read_body, hmin, hd, if_true, bytes, contents, List.getElem_map,
            List.getElem_range, List.getElem_take, net_buf_read_copy, e1, hdirect, e2,
            rt_memcpy, wrap]
          split_ifs <;> first | rfl | (exfalso; omega)
      · apply List.ext_getElem
        · simp [net_buf_read_body, hmin, hd, contents, net_buf_read_update_data_length, e0]
        · intro i h1 h2
          simp only [net_buf_read_body, hmin, hd, if_true, contents_length,
            net_buf_read_update_data_length, net_buf_read_copy_data_length, e0] at h1
          simp only [net_buf_read_body, hmin, hd, if_true, contents, List.getElem_map,
            List.getElem_range, List.getElem_drop, net_buf_read_update_read_index,
            net_buf_read_update_size, net_buf_read_update_buffer_data,
            net_buf_read_copy_buffer_data, net_buf_read_copy_size, wrap]
          simp only [net_buf_read_copy, e1, hdirect, if_true, e2]
          split_ifs <;> first | rfl | (exfalso; omega) | (congr 1; omega)
    · have e2 : usub n (nb.size - nb.read_index) = n - (nb.size - nb.read_index) :=
        usub_of_le (by omega) (by omega)
      refine ⟨?_, ?_, ?_, ?_⟩
      · simp only [ring_ok, net_buf_read_body, hmin, hd, if_true, net_buf_read_update_read_index,
          net_buf_read_update_save_index, net_buf_read_update_size,
          net_buf_read_update_data_length, net_buf_read_copy_size, net_buf_read_copy_save_index,
          net_buf_read_copy_data_length, e0, wrap]
        simp only [net_buf_read_copy, e1, hdirect, if_false, e2]
        refine ⟨by omega, hsi, by omega, ?_⟩
        split_ifs at hsave ⊢ <;> omega
      · simp [net_buf_read_body, hmin, hd]
      · apply List.ext_getElem
        · simp [net_buf_read_body, hmin, hd, bytes, contents]
          omega
        · intro i h1 h2
          simp only [net_buf_read_body, hmin, hd, if_true, bytes_length] at h1
          simp only [net_buf_read_body, hmin, hd, if_true, bytes, contents, List.getElem_map,
            List.getElem_range, List.getElem_take, net_buf_read_copy, e1, hdirect, e2,
            rt_memcpy, wrap, if_false]
          split_ifs <;> first | rfl | (exfalso; omega) | (congr 1; omega)
      · apply List.ext_getElem
        · simp [net_buf_read_body, hmin, hd, contents, net_buf_read_update_data_length, e0]
        · intro i h1 h2
          simp only [net_buf_read_body, hmin, hd, if_true, contents_length,
            net_buf_read_update_data_length, net_buf_read_copy_data_length, e0] at h1
          simp only [net_buf_read_body, hmin, hd, if_true, contents, List.getElem_map,
            List.getElem_range, List.getElem_drop, net_buf_read_update_read_index,
            net_buf_read_update_size, net_buf_read_update_buffer_data,
            net_buf_read_copy_buffer_data, net_buf_read_copy_size, wrap]
          simp only [net_buf_read_copy, e1, hdirect, if_false, e2]
          split_ifs <;> first | rfl | (exfalso; omega) | (congr 1; omega)
  · have hd0 : nb.data_length = 0 := by omega
    have hl : (if length > 0 then 0 else length) = 0 := by split <;> omega
    have hb : net_buf_read_body nb buffer length = (0, buffer, nb) := by
      simp [net_buf_read_body, hd0, hl]
    rw [hb]
    refine ⟨⟨hri, hsi, hdl, hsave⟩, rfl, ?_, ?_⟩
    · simp [bytes, hd0]
    · simp [hd0]


/-- A call of `net_buf_read`, whether it returns at once, waits first or stays blocked, gives
back some of the oldest unread bytes, in order, and leaves the rest as the unread bytes. -/
theorem net_buf_read_contents (nb : net_buffer) (buffer : Mem) (length : Nat) (sem_ok : Bool)
    (hW : nb.size < WORD) (hr : ring_ok nb) :
    ring_ok (net_buf_read nb buffer length sem_ok).nb ∧
    (net_buf_read nb buffer length sem_ok).nb.size = nb.size ∧
    ∃ k, (net_buf_read nb buffer length sem_ok).bytes = (contents nb).take k ∧
      contents (net_buf_read nb buffer length sem_ok).nb = (contents nb).drop k := by
  cases hwait : net_buf_read_wait nb
  · obtain ⟨h1, h2, h3, h4⟩ := net_buf_read_body_contents nb buffer length hW hr
    rw [net_buf_read_of_not_wait nb buffer length sem_ok hwait]
    exact ⟨h1, h2, _, h3, h4⟩
  · have hd0 : nb.data_length = 0 := ((net_buf_read_wait_iff nb).1 hwait).1
    have hl : (if length > 0 then 0 else length) = 0 := by split <;> omega
    have hr1 : ∀ (f : Bool) (w : Nat),
        ring_ok { nb with is_wait_ready := f, wait_ready := w } := fun _ _ => hr
    have hc1 : ∀ (f : Bool) (w : Nat),
        contents { nb with is_wait_ready := f, wait_ready := w } = List.drop 0 (contents nb) :=
      fun _ _ => rfl
    cases sem_ok
    · have e : net_buf_read nb buffer length false =
          .returned 0 buffer { nb with is_wait_ready := true, wait_ready := nb.wait_ready } := by
        simp [net_buf_read, hwait]
      rw [e]
      exact ⟨hr1 _ _, rfl, 0, by simp [ReadOutcome.bytes, bytes], hc1 _ _⟩
    · by_cases hw0 : nb.wait_ready = 0
      · have e : net_buf_read nb buffer length true =
            .blocked { nb with is_wait_ready := true, wait_ready := nb.wait_ready } := by
          simp [net_buf_read, hwait, hw0]
        rw [e]
        exact ⟨hr1 _ _, rfl, 0, by simp [ReadOutcome.bytes], hc1 _ _⟩
      · have e : net_buf_read nb buffer length true =
            .returned 0 buffer { nb with is_wait_ready := true, wait_ready := nb.wait_ready - 1 } := by
          simp [net_buf_read, hwait, hw0, net_buf_read_body, hd0, hl]
        rw [e]
        exact ⟨hr1 _ _, rfl, 0, by simp [ReadOutcome.bytes, bytes], hc1 _ _⟩

theorem run_ops_invariant (ops : List StoreOp) :
    ∀ (t : Transcript), t.nb.size < WORD → ring_ok t.nb →
      t.written = t.returned ++ contents t.nb → chunks_fit t.nb ops →
      ring_ok (run_ops t ops).nb ∧
      (run_ops t ops).written = (run_ops t ops).returned ++ contents (run_ops t ops).nb := by
  induction ops with
  | nil =>
    intro t _ hr hw _
    exact ⟨hr, hw⟩
  | cons op ops ih =>
    intro t hW hr hw hfit
    cases op with
    | write ptr len =>
      obtain ⟨hf, hrest⟩ := hfit
      obtain ⟨hr', hc⟩ := worker_write_contents t.nb ptr len hW hr hf
      refine ih (apply_op t (.write ptr len)) ?_ hr' ?_ hrest
      · simpa [apply_op, worker_write_size] using hW
      · simp only [apply_op, hc, hw, List.append_assoc]
    | read buffer length sem_ok =>
      obtain ⟨hr', hsz, k, hb, hc⟩ := net_buf_read_contents t.nb buffer length sem_ok hW hr
      refine ih (apply_op t (.read buffer length sem_ok)) ?_ hr' ?_ hfit
      · simpa [apply_op, hsz] using hW
      · simp only [apply_op, hb, hc, hw, List.append_assoc, List.take_append_drop]

/-- C1: from a freshly started session (length and both indices 0) of any capacity `0 < size`
(a 32-bit word), after any sequence of worker chunk writes and `net_buf_read` calls in which
every chunk fits in the free space when it is written, the bytes the reads returned, followed by the
unread bytes of the store, are exactly the bytes written, in order; so the bytes returned
are a prefix of the bytes written, and all of them once `data_length` is back to 0. -/
theorem fifo_order (nb : net_buffer) (ops : List StoreOp)
    (hC : 0 < nb.size) (hW : nb.size < WORD)
    (hfresh : nb.data_length = 0 ∧ nb.read_index = 0 ∧ nb.save_index = 0)
    (hfit : chunks_fit nb ops) :
    (run_ops ⟨nb, [], []⟩ ops).written =
      (run_ops ⟨nb, [], []⟩ ops).returned ++ contents (run_ops ⟨nb, [], []⟩ ops).nb ∧
    (run_ops ⟨nb, [], []⟩ ops).returned <+: (run_ops ⟨nb, [], []⟩ ops).written ∧
    ((run_ops ⟨nb, [], []⟩ ops).nb.data_length = 0 →
      (run_ops ⟨nb, [], []⟩ ops).returned = (run_ops ⟨nb, [], []⟩ ops).written) := by
  obtain ⟨hd, hri, hsi⟩ := hfresh
  have hr : ring_ok nb := by
    refine ⟨by omega, by omega, by omega, ?_⟩
    simp [wrap, hd, hri, hsi, hC]
  have h0 : ([] : List Byte) = [] ++ contents nb := by simp [contents, hd]
  obtain ⟨-, hw⟩ := run_ops_invariant ops ⟨nb, [], []⟩ hW hr h0 hfit
  refine ⟨hw, ⟨_, hw.symm⟩, ?_⟩
  intro hz
  have hnil : contents (run_ops ⟨nb, [], []⟩ ops).nb = [] :=
    List.eq_nil_of_length_eq_zero (by rw [contents_length, hz])
  rw [hw, hnil, List.append_nil]

/-- C1, at capacity 8: six bytes are written, four read, five more written round the end of
the region, and seven read round the end; what the reads returned is what was written. -/
theorem fifo_order_witness :
    (run_ops ⟨nb8, [], []⟩ wrap_ops).returned = [0, 1, 2, 3, 4, 5, 10, 11, 12, 13, 14] ∧
    (run_ops ⟨nb8, [], []⟩ wrap_ops).nb.data_length = 0 ∧
    (run_ops ⟨nb8, [], []⟩ wrap_ops).returned = (run_ops ⟨nb8, [], []⟩ wrap_ops).written :=
  ⟨by decide, by decide,
    (fifo_order nb8 wrap_ops (by decide) (by decide) ⟨rfl, rfl, rfl⟩ (by decide)).2.2
      (by decide)⟩

/-! ## Supporting facts on the room test and on the end of the source -/

/-- While `data_length ≤ size`, the room test of line 232 sends the worker to suspend exactly
when the chunk exceeds the free space `size - data_length`, and to the copy otherwise; the
shared record is not touched by the test. -/
theorem check_room_rule (s : Sys) (e : WorkerEnv) (hpc : s.worker.pc = .check_room)
    (hW : s.netbuf.size < WORD) (hle : s.netbuf.data_length ≤ s.netbuf.size) :
    worker_step e s =
      some { s with
        worker := { s.worker with
          pc := if s.netbuf.size - s.netbuf.data_length < s.worker.read_length then .suspend
            else .copy_in
          data_length := s.netbuf.data_length } } := by
  have e1 : usub s.netbuf.size s.netbuf.data_length = s.netbuf.size - s.netbuf.data_length :=
    usub_of_le hW hle
  by_cases h : s.netbuf.size - s.netbuf.data_length < s.worker.read_length
  · simp only [worker_step, hpc, room_short, e1, h, decide_True, if_true]
  · simp only [worker_step, hpc, room_short, e1, h, decide_False, Bool.false_eq_true, if_false]

/-- The run in which `fetch` returns 0 on its third call, after two chunks that fit, with
a reader waiting for readiness: `close` is called once, the state is Stopped, the counters
are 0, and the reader's call returns 0. -/
theorem end_of_source_run_result :
    (run end_of_source_run (sys_init 1000 zero_mem)).map
        (fun s => (s.closed, s.netbuf.stat, s.worker.pc, s.reader.pc, s.reader.rets)) =
      some ([job1], NETBUF_STAT_STOPPED, .recv, .idle, [0]) ∧
    (run end_of_source_run (sys_init 1000 zero_mem)).map
        (fun s => (s.netbuf.data_length, s.netbuf.read_index, s.netbuf.save_index)) =
      some (0, 0, 0) := by
  constructor <;> decide

/-! ## What a read returns and where it leaves the indices -/

theorem net_buf_read_body_read_index (nb : net_buffer) (buffer : Mem) (length : Nat)
    (hW : nb.size < WORD) (hri : nb.read_index < nb.size) (hdl : nb.data_length ≤ nb.size) :
    (net_buf_read_body nb buffer length).2.2.read_index =
      (nb.read_index + min length nb.data_length) % nb.size := by
  have hmin : (if length > nb.data_length then nb.data_length else length) =
      min length nb.data_length := by
    split <;> omega
  by_cases hd : nb.data_length > 0
  · have hn : min length nb.data_length ≤ nb.data_length := Nat.min_le_right _ _
    generalize min length nb.data_length = n at hmin hn ⊢
    have e1 : usub nb.size nb.read_index = nb.size - nb.read_index := usub_of_le hW (by omega)
    simp only [net_buf_read_body, hmin, hd, if_true, net_buf_read_update_read_index,
      net_buf_read_copy, e1]
    by_cases hdirect : nb.size - nb.read_index > n
    · have e2 : uadd nb.read_index n = nb.read_index + n := uadd_of_lt (by omega)
      simp only [hdirect, if_true, e2]
      exact (Nat.mod_eq_of_lt (by omega)).symm
    · have e2 : usub n (nb.size - nb.read_index) = n - (nb.size - nb.read_index) :=
        usub_of_le (by omega) (by omega)
      simp only [hdirect, if_false, e2]
      rw [Nat.mod_eq_sub_mod (by omega), Nat.mod_eq_of_lt (by omega)]
      omega
  · have hd0 : nb.data_length = 0 := by omega
    have hl : (if length > 0 then 0 else length) = 0 := by split <;> omega
    simp [net_buf_read_body, hd0, hl, Nat.mod_eq_of_lt hri]

theorem net_buf_read_body_frame (nb : net_buffer) (buffer : Mem) (length : Nat) :
    (net_buf_read_body nb buffer length).2.2.save_index = nb.save_index ∧
    (net_buf_read_body nb buffer length).2.2.buffer_data = nb.buffer_data ∧
    (net_buf_read_body nb buffer length).2.2.size = nb.size := by
  by_cases hd : nb.data_length > 0
  · simp [net_buf_read_body, hd]
  · simp [net_buf_read_body, hd]

theorem net_buf_read_body_data_length (nb : net_buffer) (buffer : Mem) (length : Nat)
    (hW : nb.data_length < WORD) :
    (net_buf_read_body nb buffer length).2.2.data_length =
      nb.data_length - min length nb.data_length := by
  have hmin : (if length > nb.data_length then nb.data_length else length) =
      min length nb.data_length := by
    split <;> omega
  by_cases hd : nb.data_length > 0
  · simp only [net_buf_read_body, hmin, hd, if_true, net_buf_read_update_data_length,
      net_buf_read_copy_data_length]
    exact usub_of_le hW (Nat.min_le_right _ _)
  · have hd0 : nb.data_length = 0 := by omega
    simp [net_buf_read_body, hd0]

/-- C11: from every record with `read_index < size` and `data_length ≤ size` (`size` a
32-bit word), every call `net_buf_read(buffer, length)` that returns (does not stay blocked)
returns exactly `min length data_length`, which is at most `length` and is 0 on an empty
store, lowers `data_length` by that amount, sets `read_index` to
`(read_index + result) mod size`, and leaves `save_index` and the stored bytes as they
were. -/
theorem net_buf_read_result (nb : net_buffer) (buffer : Mem) (length : Nat) (sem_ok : Bool)
    (hW : nb.size < WORD) (hri : nb.read_index < nb.size) (hdl : nb.data_length ≤ nb.size) :
    ∀ (n : Nat) (b : Mem) (nb' : net_buffer),
      net_buf_read nb buffer length sem_ok = .returned n b nb' →
      n = min length nb.data_length ∧ n ≤ length ∧ (nb.data_length = 0 → n = 0) ∧
      nb'.data_length = nb.data_length - n ∧
      nb'.read_index = (nb.read_index + n) % nb.size ∧
      nb'.save_index = nb.save_index ∧ nb'.buffer_data = nb.buffer_data := by
  intro n b nb' h
  cases hwait : net_buf_read_wait nb
  · rw [net_buf_read_of_not_wait nb buffer length sem_ok hwait, net_buf_read_body_fst] at h
    simp only [ReadOutcome.returned.injEq] at h
    obtain ⟨hn, -, hnb⟩ := h
    subst hn hnb
    obtain ⟨f1, f2, -⟩ := net_buf_read_body_frame nb buffer length
    refine ⟨rfl, Nat.min_le_left _ _, fun h0 => by simp [h0],
      net_buf_read_body_data_length nb buffer length (by omega),
      net_buf_read_body_read_index nb buffer length hW hri hdl, f1, f2⟩
  · have hd0 : nb.data_length = 0 := ((net_buf_read_wait_iff nb).1 hwait).1
    have hl : (if length > 0 then 0 else length) = 0 := by split <;> omega
    have hmod : nb.read_index % nb.size = nb.read_index := Nat.mod_eq_of_lt hri
    cases sem_ok
    · simp only [net_buf_read, hwait, if_true, Bool.false_eq_true, if_false,
        ReadOutcome.returned.injEq] at h
      obtain ⟨hn, -, hnb⟩ := h
      subst hn hnb
      simp [hd0, hmod]
    · by_cases hw0 : nb.wait_ready = 0
      · simp [net_buf_read, hwait, hw0] at h
      · simp only [net_buf_read, hwait, if_true, hw0, if_false, net_buf_read_body, hd0, hl,
          gt_iff_lt, Nat.lt_irrefl, ReadOutcome.returned.injEq] at h
        obtain ⟨hn, -, hnb⟩ := h
        subst hn hnb
        simp [hd0, hmod]

/-- C11, on the Suspended store of capacity 1000 that holds 1000 bytes: a read of up to 250
bytes returns 250, leaves 750 bytes and `read_index = 250`. -/
theorem net_buf_read_result_witness :
    (250 = min 250 nb_full_suspended.data_length) ∧
    (net_buf_read_body nb_full_suspended zero_mem 250).2.2.data_length = 1000 - 250 ∧
    (net_buf_read_body nb_full_suspended zero_mem 250).2.2.read_index = (0 + 250) % 1000 := by
  have h := net_buf_read_result nb_full_suspended zero_mem 250 true (by decide) (by decide)
    (by decide) 250 _ _ rfl
  exact ⟨h.1, h.2.2.2.1, h.2.2.2.2.1⟩

/-! ## Reads after the store was ready -/

/-- C12, refuted as stated: at capacity 1000 the first chunk takes `data_length` to
1000 ≥ `ready_wm` = 900; two reads then return 512 and 488 bytes and leave the store empty
in state Buffering; the next read sets the waiting flag and blocks on `wait_ready`. -/
theorem net_buf_read_blocks_again_after_drain :
    (run (first_chunk_run 1000) (sys_init 1000 zero_mem)).map
        (fun s => (s.netbuf.data_length, s.netbuf.ready_wm)) = some (1000, 900) ∧
    (run drain_run (sys_init 1000 zero_mem)).map
        (fun s => (s.reader.rets, s.netbuf.data_length, s.netbuf.stat, s.reader.pc)) =
      some ([512, 488], 0, NETBUF_STAT_BUFFERING, .idle) ∧
    (run (drain_run ++ [.read_call zero_mem 512]) (sys_init 1000 zero_mem)).map
        (fun s => (s.reader.pc, s.netbuf.is_wait_ready, s.netbuf.wait_ready, s.reader.rets)) =
      some (.take_ready, true, 0, [512, 488]) ∧
    ((run (drain_run ++ [.read_call zero_mem 512]) (sys_init 1000 zero_mem)).bind
        (reader_step true)).isNone = true := by
  decide

/-- C12 (amended): in every state with `data_length > 0`, whatever the state of the worker
(Suspended included) and whatever was read before, `net_buf_read` goes straight to the copy
and returns `min length data_length` without waiting on `wait_ready`, and the reader's two
steps after the call are never blocked; in an active session with `data_length = 0` the call
sets the waiting flag and waits on `wait_ready`, also after `data_length` had reached
`ready_wm` earlier in the session. -/
theorem net_buf_read_no_wait_when_nonempty :
    (∀ (s : Sys) (buffer : Mem) (length : Nat),
      s.reader.pc = .idle → 0 < s.netbuf.data_length →
      reader_call buffer length s =
        some { s with reader := { s.reader with pc := .body, buffer := buffer, length := length } }) ∧
    (∀ (s : Sys) (ok : Bool), s.reader.pc = .body ∨ s.reader.pc = .crit →
      (reader_step ok s).isSome = true) ∧
    (∀ (nb : net_buffer) (buffer : Mem) (length : Nat) (sem_ok : Bool),
      0 < nb.data_length →
      (net_buf_read nb buffer length sem_ok).nb.is_wait_ready = nb.is_wait_ready ∧
      (net_buf_read nb buffer length sem_ok).nb.wait_ready = nb.wait_ready ∧
      (net_buf_read nb buffer length sem_ok).bytes.length = min length nb.data_length) ∧
    (∀ (s : Sys) (buffer : Mem) (length : Nat),
      s.reader.pc = .idle → s.netbuf.data_length = 0 →
      (s.netbuf.stat = NETBUF_STAT_BUFFERING ∨ s.netbuf.stat = NETBUF_STAT_SUSPEND) →
      (reader_call buffer length s).map (fun s' => (s'.reader.pc, s'.netbuf.is_wait_ready)) =
        some (.take_ready, true)) := by
  refine ⟨?_, ?_, ?_, ?_⟩
  · intro s buffer length hpc hd
    have hnw : net_buf_read_wait s.netbuf = false := by
      have : ¬ s.netbuf.data_length = 0 := by omega
      simp [net_buf_read_wait, this]
    simp [reader_call, hpc, hnw]
  · intro s ok hpc
    rcases hpc with hpc | hpc
    · simp only [reader_step, hpc]
      split <;> rfl
    · simp [reader_step, hpc]
  · intro nb buffer length sem_ok hd
    have hnw : net_buf_read_wait nb = false := by
      have : ¬ nb.data_length = 0 := by omega
      simp [net_buf_read_wait, this]
    rw [net_buf_read_of_not_wait nb buffer length sem_ok hnw]
    refine ⟨?_, ?_, ?_⟩
    · simp [ReadOutcome.nb, net_buf_read_body, hd]
    · simp [ReadOutcome.nb, net_buf_read_body, hd]
    · simp only [ReadOutcome.bytes, bytes_length, net_buf_read_body_fst]
  · intro s buffer length hpc hd hs
    have hwait : net_buf_read_wait s.netbuf = true := (net_buf_read_wait_iff _).2 ⟨hd, hs⟩
    simp [reader_call, hpc, hwait]

/-- C12 (amended), on the Suspended store of capacity 1000 that holds 1000 bytes: a read of
up to 250 bytes does not touch the waiting flag or `wait_ready` and returns 250 bytes. -/
theorem net_buf_read_no_wait_when_nonempty_witness :
    (net_buf_read nb_full_suspended zero_mem 250 true).nb.is_wait_ready = false ∧
    (net_buf_read nb_full_suspended zero_mem 250 true).nb.wait_ready = 0 ∧
    (net_buf_read nb_full_suspended zero_mem 250 true).bytes.length = 250 :=
  net_buf_read_no_wait_when_nonempty.2.2.1 nb_full_suspended zero_mem 250 true (by decide)

/-! ## `net_buf_init` -/

/-- While `size * 90` fits in a word (`size ≤ 47721858`), `net_buf_init` sets the watermarks
to 90% and 80% of the capacity, rounded down, in the order `resume_wm ≤ ready_wm ≤ size`,
and leaves the state Stopped with the counters at 0 and the flag clear. -/
theorem net_buf_init_fields (size : Nat) (mem : Mem) (h : size ≤ 47721858) :
    (net_buf_init size mem).size = size ∧
    (net_buf_init size mem).ready_wm = size * 90 / 100 ∧
    (net_buf_init size mem).resume_wm = size * 80 / 100 ∧
    (net_buf_init size mem).resume_wm ≤ (net_buf_init size mem).ready_wm ∧
    (net_buf_init size mem).ready_wm ≤ size ∧
    (net_buf_init size mem).stat = NETBUF_STAT_STOPPED ∧
    (net_buf_init size mem).read_index = 0 ∧ (net_buf_init size mem).save_index = 0 ∧
    (net_buf_init size mem).data_length = 0 ∧ (net_buf_init size mem).is_wait_ready = false := by
  have h90 : umul size 90 = size * 90 :=
    Nat.mod_eq_of_lt (show size * 90 < 4294967296 by omega)
  have h80 : umul size 80 = size * 80 :=
    Nat.mod_eq_of_lt (show size * 80 < 4294967296 by omega)
  have e90 : (net_buf_init size mem).ready_wm = size * 90 / 100 := by
    show umul size 90 / 100 = size * 90 / 100
    rw [h90]
  have e80 : (net_buf_init size mem).resume_wm = size * 80 / 100 := by
    show umul size 80 / 100 = size * 80 / 100
    rw [h80]
  refine ⟨rfl, e90, e80, ?_, ?_, rfl, rfl, rfl, rfl, rfl⟩
  · rw [e90, e80]
    omega
  · rw [e90]
    omega

/-- C13, at capacity 47721859, a value of `rt_size_t`: `size * 90` is 4294967310, which
wraps to 14, so `ready_wm` is set to 0 instead of 42949673 (90% of the capacity), while
`resume_wm` is 38177487; the resume watermark is above the ready watermark. -/
theorem net_buf_init_watermarks_overflow :
    umul 47721859 90 = 14 ∧
    (net_buf_init 47721859 zero_mem).size = 47721859 ∧
    (net_buf_init 47721859 zero_mem).ready_wm = 0 ∧
    47721859 * 90 / 100 = 42949673 ∧
    (net_buf_init 47721859 zero_mem).resume_wm = 38177487 ∧
    ¬ (net_buf_init 47721859 zero_mem).resume_wm ≤ (net_buf_init 47721859 zero_mem).ready_wm := by
  decide

/-! ## `kfifo`: arithmetic of the counters -/

theorem kfifo_min_eq (a b : Nat) : kfifo_min a b = min a b := by
  unfold kfifo_min
  split <;> omega

theorem wrap_eq_mod {size x : Nat} (h : x < 2 * size) : wrap size x = x % size := by
  unfold wrap
  split
  · rename_i hlt
    exact (Nat.mod_eq_of_lt hlt).symm
  · rename_i hge
    rw [Nat.mod_eq_sub_mod (by omega), Nat.mod_eq_of_lt (by omega)]

/-- For words `a` and `b`, `b + (a - b)` is `a` again, modulo `WORD`. -/
theorem add_usub_cancel {a b : Nat} (ha : a < WORD) :
    (b + usub a b) % WORD = a := by
  simp only [usub, WORD] at *
  omega

theorem usub_lt (a b : Nat) : usub a b < WORD := Nat.mod_lt _ (by decide)

theorem uadd_lt (a b : Nat) : uadd a b < WORD := Nat.mod_lt _ (by decide)

/-- Adding `n` to the first of two words adds `n` to their difference, if that stays a
word. -/
theorem usub_uadd {a b n : Nat} (h : usub a b + n < WORD) :
    usub (uadd a n) b = usub a b + n := by
  simp only [usub, uadd, WORD] at *
  omega

/-- Adding `n ≤ a - b` to the second of two words takes `n` off their difference. -/
theorem usub_uadd_right {a b n : Nat} (h : n ≤ usub a b) :
    usub a (uadd b n) = usub a b - n := by
  simp only [usub, uadd, WORD] at *
  omega

theorem word_eq_two_pow : WORD = 2 ^ 32 := by decide

theorem kfifo_size_dvd_word {size : Nat} (h : ∃ k, k < 32 ∧ size = 2 ^ k) : size ∣ WORD := by
  obtain ⟨k, hk, rfl⟩ := h
  rw [word_eq_two_pow]
  exact Nat.pow_dvd_pow 2 (by omega)

theorem kfifo_size_bounds {size : Nat} (h : ∃ k, k < 32 ∧ size = 2 ^ k) :
    0 < size ∧ size < WORD := by
  obtain ⟨k, hk, rfl⟩ := h
  refine ⟨Nat.pos_pow_of_pos k (by decide), ?_⟩
  rw [word_eq_two_pow]
  exact Nat.pow_lt_pow_right (by decide) hk

/-- The mask `& (size - 1)` of a power-of-two size is the remainder modulo the size. -/
theorem kfifo_mask {size : Nat} (h : ∃ k, k < 32 ∧ size = 2 ^ k) (x : Nat) :
    x &&& usub size 1 = x % size := by
  have hb := kfifo_size_bounds h
  rw [usub_of_le hb.2 (by omega)]
  obtain ⟨k, -, rfl⟩ := h
  exact Nat.and_pow_two_sub_one_eq_mod x k

/-- The position of `in` in the buffer is that of `out`, moved on by the number of bytes
held, round the end of the buffer. -/
theorem kfifo_in_index (fifo : kfifo) (h : kfifo_ok fifo) :
    fifo.in_ % fifo.size = wrap fifo.size (fifo.out % fifo.size + kfifo_len fifo) := by
  obtain ⟨hp, hi, ho, hl⟩ := h
  have hb := kfifo_size_bounds hp
  have hlt : fifo.out % fifo.size < fifo.size := Nat.mod_lt _ hb.1
  rw [wrap_eq_mod (by omega), Nat.mod_add_mod]
  have e := add_usub_cancel (b := fifo.out) hi
  unfold kfifo_len
  conv_lhs => rw [← e]
  exact Nat.mod_mod_of_dvd _ (kfifo_size_dvd_word hp)

/-- The position in the buffer of the `j`-th byte after `out + n`. -/
theorem kfifo_out_index (fifo : kfifo) (h : kfifo_ok fifo) (n j : Nat)
    (hj : n + j ≤ fifo.size) :
    (uadd fifo.out n + j) % fifo.size = wrap fifo.size (fifo.out % fifo.size + (n + j)) := by
  obtain ⟨hp, hi, ho, hl⟩ := h
  have hb := kfifo_size_bounds hp
  have hlt : fifo.out % fifo.size < fifo.size := Nat.mod_lt _ hb.1
  rw [wrap_eq_mod (by omega), Nat.mod_add_mod]
  unfold uadd
  rw [Nat.add_mod, Nat.mod_mod_of_dvd _ (kfifo_size_dvd_word hp), ← Nat.add_mod, Nat.add_assoc]
/-! ## `kfifo`: what `kfifo_in` and `kfifo_out` do to the bytes held -/

theorem kfifo_contents_eq (fifo : kfifo) (h : kfifo_ok fifo) :
    kfifo_contents fifo =
      (List.range (kfifo_len fifo)).map
        (fun j => fifo.buffer (wrap fifo.size (fifo.out % fifo.size + j))) := by
  unfold kfifo_contents
  apply List.map_congr_left
  intro j hj
  rw [List.mem_range] at hj
  have hb := kfifo_size_bounds h.1
  have hlt : fifo.out % fifo.size < fifo.size := Nat.mod_lt _ hb.1
  have hl := h.2.2.2
  rw [wrap_eq_mod (by omega), Nat.mod_add_mod]

/-- The call `kfifo_in(fifo, d, len)` returns `min len free`, keeps the fifo well formed,
raises the number of bytes held by the count returned and puts the first bytes of `d`,
as many as it returned, behind the bytes held. -/
theorem kfifo_in_spec (fifo : kfifo) (d : Mem) (len : Nat) (h : kfifo_ok fifo) :
    (kfifo_in fifo d len).1 = min len (fifo.size - kfifo_len fifo) ∧
    kfifo_ok (kfifo_in fifo d len).2 ∧
    kfifo_len (kfifo_in fifo d len).2 = kfifo_len fifo + (kfifo_in fifo d len).1 ∧
    kfifo_contents (kfifo_in fifo d len).2 =
      kfifo_contents fifo ++ bytes d (kfifo_in fifo d len).1 := by
  have hidx := kfifo_in_index fifo h
  have hmask := kfifo_mask h.1 fifo.in_
  have hc := kfifo_contents_eq fifo h
  obtain ⟨hp, hi, ho, hl⟩ := h
  have hb := kfifo_size_bounds hp
  have hW : fifo.size < 4294967296 := hb.2
  simp only [kfifo_len] at hidx hl hc ⊢
  have hav : kfifo_is_avail fifo = fifo.size - usub fifo.in_ fifo.out := by
    simp only [kfifo_is_avail, kfifo_size, kfifo_len]
    exact usub_of_le hb.2 hl
  have hn : min len (fifo.size - usub fifo.in_ fifo.out) ≤ fifo.size - usub fifo.in_ fifo.out :=
    Nat.min_le_right _ _
  have hlen' : usub (uadd fifo.in_ (min len (fifo.size - usub fifo.in_ fifo.out))) fifo.out =
      usub fifo.in_ fifo.out + min len (fifo.size - usub fifo.in_ fifo.out) :=
    usub_uadd (by show _ < 4294967296; omega)
  have hfst : (kfifo_in fifo d len).1 = min len (fifo.size - usub fifo.in_ fifo.out) := by
    simp only [kfifo_in, kfifo_min_eq, hav]
  have hin : (kfifo_in fifo d len).2.in_ =
      uadd fifo.in_ (min len (fifo.size - usub fifo.in_ fifo.out)) := by
    simp only [kfifo_in, kfifo_min_eq, hav]
  have hout : (kfifo_in fifo d len).2.out = fifo.out := rfl
  have hsize : (kfifo_in fifo d len).2.size = fifo.size := rfl
  have hok' : kfifo_ok (kfifo_in fifo d len).2 := by
    refine ⟨hp, ?_, ho, ?_⟩
    · rw [hin]
      exact uadd_lt _ _
    · simp only [kfifo_len, hin, hout, hsize, hlen']
      omega
  refine ⟨hfst, hok', ?_, ?_⟩
  · rw [hin, hout, hfst, hlen']
  · rw [kfifo_contents_eq _ hok', hc, hfst]
    simp only [kfifo_len, hin, hout, hsize, hlen']
    have hlt : fifo.out % fifo.size < fifo.size := Nat.mod_lt _ hb.1
    have hilt : fifo.in_ % fifo.size < fifo.size := Nat.mod_lt _ hb.1
    simp only [kfifo_in, kfifo_min_eq, hav, hmask]
    generalize min len (fifo.size - usub fifo.in_ fifo.out) = n at hn ⊢
    generalize fifo.in_ % fifo.size = i0 at hidx hilt ⊢
    generalize fifo.out % fifo.size = o at hidx hlt ⊢
    generalize usub fifo.in_ fifo.out = u at hidx hn hl ⊢
    have e1 : usub fifo.size i0 = fifo.size - i0 := usub_of_le hb.2 (by omega)
    have e2 : usub n (min n (fifo.size - i0)) = n - min n (fifo.size - i0) :=
      usub_of_le (by show _ < 4294967296; omega) (Nat.min_le_left _ _)
    unfold wrap at hidx
    apply List.ext_getElem
    · simp [bytes]
    · intro j h1 h2
      simp only [List.length_map, List.length_range] at h1
      simp only [List.getElem_map, List.getElem_range, List.getElem_append, bytes,
        List.length_map, List.length_range, memcpy, rt_memcpy, wrap, e1, e2]
      split_ifs at hidx ⊢ <;> first | rfl | (exfalso; omega) | (congr 1; omega)

/-- The call `kfifo_out(fifo, out, len)` returns `min len held`, keeps the fifo well formed,
lowers the number of bytes held by the count returned, gives back the oldest bytes held, as
many as it returned and in their order, and leaves the rest as the bytes held; the buffer is
not written. -/
theorem kfifo_out_spec (fifo : kfifo) (out : Mem) (len : Nat) (h : kfifo_ok fifo) :
    (kfifo_out fifo out len).1 = min len (kfifo_len fifo) ∧
    kfifo_ok (kfifo_out fifo out len).2.2 ∧
    kfifo_len (kfifo_out fifo out len).2.2 = kfifo_len fifo - (kfifo_out fifo out len).1 ∧
    bytes (kfifo_out fifo out len).2.1 (kfifo_out fifo out len).1 =
      (kfifo_contents fifo).take (kfifo_out fifo out len).1 ∧
    kfifo_contents (kfifo_out fifo out len).2.2 =
      (kfifo_contents fifo).drop (kfifo_out fifo out len).1 ∧
    (kfifo_out fifo out len).2.2.buffer = fifo.buffer := by
  have hmask := kfifo_mask h.1 fifo.out
  have hc := kfifo_contents_eq fifo h
  have hoi := kfifo_out_index fifo h
  obtain ⟨hp, hi, ho, hl⟩ := h
  have hb := kfifo_size_bounds hp
  have hW : fifo.size < 4294967296 := hb.2
  simp only [kfifo_len] at hl hc ⊢
  have hn : min len (usub fifo.in_ fifo.out) ≤ usub fifo.in_ fifo.out := Nat.min_le_right _ _
  have hlen' : usub fifo.in_ (uadd fifo.out (min len (usub fifo.in_ fifo.out))) =
      usub fifo.in_ fifo.out - min len (usub fifo.in_ fifo.out) :=
    usub_uadd_right hn
  have hfst : (kfifo_out fifo out len).1 = min len (usub fifo.in_ fifo.out) := by
    simp only [kfifo_out, kfifo_min_eq, kfifo_len]
  have hout : (kfifo_out fifo out len).2.2.out =
      uadd fifo.out (min len (usub fifo.in_ fifo.out)) := by
    simp only [kfifo_out, kfifo_min_eq, kfifo_len]
  have hin : (kfifo_out fifo out len).2.2.in_ = fifo.in_ := rfl
  have hsize : (kfifo_out fifo out len).2.2.size = fifo.size := rfl
  have hbuf : (kfifo_out fifo out len).2.2.buffer = fifo.buffer := rfl
  have hok' : kfifo_ok (kfifo_out fifo out len).2.2 := by
    refine ⟨hp, hi, ?_, ?_⟩
    · rw [hout]
      exact uadd_lt _ _
    · simp only [kfifo_len, hin, hout, hsize, hlen']
      omega
  refine ⟨hfst, hok', ?_, ?_, ?_, hbuf⟩
  · rw [hin, hout, hfst, hlen']
  · rw [hc, hfst]
    have hlt : fifo.out % fifo.size < fifo.size := Nat.mod_lt _ hb.1
    simp only [kfifo_out, kfifo_min_eq, kfifo_len, hmask]
    generalize min len (usub fifo.in_ fifo.out) = n at hn ⊢
    generalize fifo.out % fifo.size = o at hlt ⊢
    generalize usub fifo.in_ fifo.out = u at hn hl ⊢
    have e1 : usub fifo.size o = fifo.size - o := usub_of_le hb.2 (by omega)
    have e2 : usub n (min n (fifo.size - o)) = n - min n (fifo.size - o) :=
      usub_of_le (by show _ < 4294967296; omega) (Nat.min_le_left _ _)
    apply List.ext_getElem
    · simp [bytes]
      omega
    · intro j h1 h2
      simp only [bytes_length] at h1
      simp only [List.getElem_map, List.getElem_range, List.getElem_take, bytes, memcpy,
        rt_memcpy, wrap, e1, e2]
      split_ifs <;> first | rfl | (exfalso; omega) | (congr 1; omega)
  · rw [hc, hfst]
    unfold kfifo_contents
    simp only [kfifo_len, hin, hout, hsize, hbuf, hlen']
    apply List.ext_getElem
    · simp
    · intro j h1 h2
      simp only [List.length_map, List.length_range] at h1
      simp only [List.getElem_map, List.getElem_range, List.getElem_drop]
      rw [hoi _ j (by omega)]

/-! ## `kfifo`: round trip -/

theorem fifo_run_invariant (ops : List FifoOp) :
    ∀ (t : FifoTrace) (base : List Byte), kfifo_ok t.fifo →
      base ++ t.stored = t.got ++ kfifo_contents t.fifo →
      kfifo_ok (fifo_run t ops).fifo ∧
      base ++ (fifo_run t ops).stored =
        (fifo_run t ops).got ++ kfifo_contents (fifo_run t ops).fifo := by
  induction ops with
  | nil =>
    intro t base hok h
    exact ⟨hok, h⟩
  | cons op ops ih =>
    intro t base hok h
    cases op with
    | put d len =>
      obtain ⟨-, hok', -, hc⟩ := kfifo_in_spec t.fifo d len hok
      refine ih (fifo_apply t (.put d len)) base hok' ?_
      simp only [fifo_apply, hc, ← List.append_assoc, h]
    | get out len =>
      obtain ⟨-, hok', -, hb, hc, -⟩ := kfifo_out_spec t.fifo out len hok
      refine ih (fifo_apply t (.get out len)) base hok' ?_
      simp only [fifo_apply, hb, hc, h, List.append_assoc, List.take_append_drop]

/-- C14: for every fifo whose size is a power of two (below 2^32), whose counters are words
and which holds `in - out ≤ size` bytes (mod 2^32): `kfifo_in(d, len)` puts the first
`min len free` bytes of `d` behind the bytes held; `kfifo_out` gives back the oldest bytes
held, in order, and leaves the rest; so after any sequence of calls the bytes given back,
followed by the bytes still held, are the bytes held at the start followed by those stored,
each once and in order. Nothing is assumed on where `in` and `out` stand, so the counters
may pass 2^32 and the data may go round the end of the buffer. -/
theorem kfifo_round_trip (fifo : kfifo) (h : kfifo_ok fifo) :
    (∀ (d : Mem) (len : Nat),
      (kfifo_in fifo d len).1 = min len (kfifo_is_avail fifo) ∧
      kfifo_contents (kfifo_in fifo d len).2 =
        kfifo_contents fifo ++ bytes d (min len (kfifo_is_avail fifo))) ∧
    (∀ (out : Mem) (len : Nat),
      (kfifo_out fifo out len).1 = min len (kfifo_len fifo) ∧
      bytes (kfifo_out fifo out len).2.1 (kfifo_out fifo out len).1 =
        (kfifo_contents fifo).take (min len (kfifo_len fifo)) ∧
      kfifo_contents (kfifo_out fifo out len).2.2 =
        (kfifo_contents fifo).drop (min len (kfifo_len fifo))) ∧
    (∀ (ops : List FifoOp),
      kfifo_ok (fifo_run ⟨fifo, [], []⟩ ops).fifo ∧
      kfifo_contents fifo ++ (fifo_run ⟨fifo, [], []⟩ ops).stored =
        (fifo_run ⟨fifo, [], []⟩ ops).got ++ kfifo_contents (fifo_run ⟨fifo, [], []⟩ ops).fifo ∧
      (kfifo_len fifo = 0 → kfifo_len (fifo_run ⟨fifo, [], []⟩ ops).fifo = 0 →
        (fifo_run ⟨fifo, [], []⟩ ops).got = (fifo_run ⟨fifo, [], []⟩ ops).stored)) := by
  have hav : kfifo_is_avail fifo = fifo.size - kfifo_len fifo := by
    simp only [kfifo_is_avail, kfifo_size]
    exact usub_of_le (kfifo_size_bounds h.1).2 h.2.2.2
  refine ⟨?_, ?_, ?_⟩
  · intro d len
    obtain ⟨h1, -, -, h4⟩ := kfifo_in_spec fifo d len h
    rw [hav]
    exact ⟨h1, h1 ▸ h4⟩
  · intro out len
    obtain ⟨h1, -, -, h4, h5, -⟩ := kfifo_out_spec fifo out len h
    exact ⟨h1, h1 ▸ h4, h1 ▸ h5⟩
  · intro ops
    obtain ⟨hok, hrun⟩ := fifo_run_invariant ops ⟨fifo, [], []⟩ (kfifo_contents fifo) h
      (by simp)
    refine ⟨hok, hrun, ?_⟩
    intro h0 h1
    have e0 : kfifo_contents fifo = [] :=
      List.eq_nil_of_length_eq_zero (by simp [kfifo_contents, h0])
    have e1 : kfifo_contents (fifo_run ⟨fifo, [], []⟩ ops).fifo = [] :=
      List.eq_nil_of_length_eq_zero (by simp [kfifo_contents, h1])
    rw [e0, e1, List.nil_append, List.append_nil] at hrun
    exact hrun.symm

theorem fifo8_ok : kfifo_ok fifo8 :=
  ⟨⟨3, by decide, rfl⟩, by decide, by decide, by decide⟩

/-- C14, on an empty fifo of 8 bytes whose counters stand at 2^32 - 3 (position 5 of the
buffer): six bytes are stored, then two of five offered (the fifo is full), `in` has
passed 2^32; reads of up to 3 and up to 9 bytes give the eight bytes back in order. -/
theorem kfifo_round_trip_witness :
    (fifo_run ⟨fifo8, [], []⟩ fifo8_ops).stored = [20, 21, 22, 23, 24, 25, 40, 41] ∧
    (fifo_run ⟨fifo8, [], []⟩ fifo8_ops).fifo.in_ = 5 ∧
    (fifo_run ⟨fifo8, [], []⟩ fifo8_ops).fifo.out = 5 ∧
    (fifo_run ⟨fifo8, [], []⟩ fifo8_ops).got = (fifo_run ⟨fifo8, [], []⟩ fifo8_ops).stored :=
  ⟨by decide, by decide, by decide,
    ((kfifo_round_trip fifo8 fifo8_ok).2.2 fifo8_ops).2.2 (by decide) (by decide)⟩

/-! ## `kfifo`: the counts -/

theorem rt_memcpy_zero (dst : Mem) (d : Nat) (src : Mem) (s : Nat) :
    rt_memcpy dst d src s 0 = dst := by
  funext a
  simp only [rt_memcpy]
  split
  · omega
  · rfl

/-- C15: for every fifo whose size is a power of two (below 2^32), whose counters are words
and which holds `in - out ≤ size` bytes (mod 2^32), and every `len`: `kfifo_in` returns
`min len kfifo_is_avail` and raises `kfifo_len` by that amount; `kfifo_out` returns
`min len kfifo_len` and lowers `kfifo_len` by that amount; `kfifo_len ≤ size` holds after
`kfifo_in`, `kfifo_out` and `kfifo_reset`; `kfifo_in` on a full fifo returns 0 and changes
nothing; `kfifo_out` on an empty fifo returns 0 and changes nothing. -/
theorem kfifo_counts (fifo : kfifo) (d out : Mem) (len : Nat) (h : kfifo_ok fifo) :
    (kfifo_in fifo d len).1 = min len (kfifo_is_avail fifo) ∧
    kfifo_len (kfifo_in fifo d len).2 = kfifo_len fifo + (kfifo_in fifo d len).1 ∧
    (kfifo_out fifo out len).1 = min len (kfifo_len fifo) ∧
    kfifo_len (kfifo_out fifo out len).2.2 = kfifo_len fifo - (kfifo_out fifo out len).1 ∧
    kfifo_len (kfifo_in fifo d len).2 ≤ (kfifo_in fifo d len).2.size ∧
    kfifo_len (kfifo_out fifo out len).2.2 ≤ (kfifo_out fifo out len).2.2.size ∧
    kfifo_len (kfifo_reset fifo) ≤ (kfifo_reset fifo).size ∧
    (kfifo_is_full fifo = true → kfifo_in fifo d len = (0, fifo)) ∧
    (kfifo_is_empty fifo = true → kfifo_out fifo out len = (0, out, fifo)) := by
  have hav : kfifo_is_avail fifo = fifo.size - kfifo_len fifo := by
    simp only [kfifo_is_avail, kfifo_size]
    exact usub_of_le (kfifo_size_bounds h.1).2 h.2.2.2
  obtain ⟨i1, i2, i3, -⟩ := kfifo_in_spec fifo d len h
  obtain ⟨o1, o2, o3, -⟩ := kfifo_out_spec fifo out len h
  refine ⟨hav ▸ i1, i3, o1, o3, i2.2.2.2, o2.2.2.2, ?_, ?_, ?_⟩
  · simp [kfifo_reset, kfifo_len, usub]
  · intro hfull
    have h0 : kfifo_is_avail fifo = 0 := by simpa [kfifo_is_full] using hfull
    have hin : uadd fifo.in_ 0 = fifo.in_ := by
      rw [uadd_of_lt (by simpa using h.2.1)]
      rfl
    simp only [kfifo_in, h0, kfifo_min_eq, Nat.min_zero, Nat.zero_min, memcpy, rt_memcpy_zero,
      usub, hin]
    simp [rt_memcpy_zero]
  · intro hempty
    have h0 : kfifo_len fifo = 0 := by simpa [kfifo_is_empty] using hempty
    have hout : uadd fifo.out 0 = fifo.out := by
      rw [uadd_of_lt (by simpa using h.2.2.1)]
      rfl
    simp only [kfifo_out, h0, kfifo_min_eq, Nat.min_zero, Nat.zero_min, memcpy, rt_memcpy_zero,
      usub, hout]
    simp [rt_memcpy_zero]

/-- C15, on the empty fifo of 8 bytes: `kfifo_in` of 11 bytes returns 8 and fills it,
`kfifo_out` returns 0 and changes nothing. -/
theorem kfifo_counts_witness :
    (kfifo_in fifo8 (ramp_from 20) 11).1 = min 11 (kfifo_is_avail fifo8) ∧
    kfifo_is_avail fifo8 = 8 ∧
    kfifo_len (kfifo_in fifo8 (ramp_from 20) 11).2 = kfifo_len fifo8 + (kfifo_in fifo8 (ramp_from 20) 11).1 ∧
    kfifo_out fifo8 zero_mem 4 = (0, zero_mem, fifo8) := by
  have h := kfifo_counts fifo8 (ramp_from 20) zero_mem 11 fifo8_ok
  have h4 := kfifo_counts fifo8 (ramp_from 20) zero_mem 4 fifo8_ok
  exact ⟨h.1, by decide, h.2.1, h4.2.2.2.2.2.2.2.2 (by decide)⟩

/-! ## `kfifo`: powers of two -/

/-- A positive number has no bit in common with its predecessor exactly when it is a power
of two. -/
theorem and_pred_eq_zero_iff (x : Nat) : x ≠ 0 → (x &&& (x - 1) = 0 ↔ ∃ k, x = 2 ^ k) := by
  induction x using Nat.strong_induction_on with
  | _ x ih =>
    intro hx
    have hdiv : (x &&& (x - 1)) / 2 = x / 2 &&& (x - 1) / 2 := Nat.and_div_two
    have hmod : (x &&& (x - 1)) % 2 = 0 := by
      by_contra hne
      have h1 : (x &&& (x - 1)) % 2 = 1 := by omega
      rw [Nat.and_mod_two_eq_one] at h1
      omega
    have hzero : x &&& (x - 1) = 0 ↔ x / 2 &&& (x - 1) / 2 = 0 := by
      rw [← hdiv]
      omega
    rw [hzero]
    by_cases hodd : x % 2 = 1
    · have e : (x - 1) / 2 = x / 2 := by omega
      rw [e, Nat.and_self]
      constructor
      · intro h0
        exact ⟨0, by omega⟩
      · rintro ⟨k, hk⟩
        cases k with
        | zero => simp at hk; omega
        | succ k =>
          rw [Nat.pow_succ] at hk
          omega
    · have e : (x - 1) / 2 = x / 2 - 1 := by omega
      have hy : x / 2 ≠ 0 := by omega
      rw [e, ih (x / 2) (by omega) hy]
      constructor
      · rintro ⟨k, hk⟩
        exact ⟨k + 1, by rw [Nat.pow_succ]; omega⟩
      · rintro ⟨k, hk⟩
        cases k with
        | zero => simp at hk; omega
        | succ k =>
          rw [Nat.pow_succ] at hk
          exact ⟨k, by omega⟩

theorem is_power_of_2_iff (x : Nat) (hx : x < WORD) :
    is_power_of_2 x = true ↔ ∃ k, k < 32 ∧ x = 2 ^ k := by
  by_cases h0 : x = 0
  · subst h0
    constructor
    · intro h
      simp [is_power_of_2] at h
    · rintro ⟨k, -, hk⟩
      exact absurd hk.symm (Nat.pos_iff_ne_zero.1 (Nat.pos_pow_of_pos k (by decide)))
  · have e : usub x 1 = x - 1 := usub_of_le hx (by omega)
    have hiff := and_pred_eq_zero_iff x h0
    have hdef : is_power_of_2 x = true ↔ x &&& (x - 1) = 0 := by
      simp [is_power_of_2, e, h0]
    rw [hdef, hiff]
    constructor
    · rintro ⟨k, hk⟩
      refine ⟨k, ?_, hk⟩
      rw [hk, word_eq_two_pow] at hx
      exact (Nat.pow_lt_pow_iff_right (by decide)).1 hx
    · rintro ⟨k, -, hk⟩
      exact ⟨k, hk⟩

theorem roundup_loop_least (x : Nat) (hx : x ≤ 2 ^ 31) :
    ∀ (n i b : Nat), i + n = 32 → (∀ j, j < i → 2 ^ j < x) →
      least_pow2_ge x (roundup_loop x n i b) := by
  intro n
  induction n with
  | zero =>
    intro i b hi hlow
    have := hlow 31 (by omega)
    omega
  | succ n ih =>
    intro i b hi hlow
    have hb : (1 <<< i) % WORD = 2 ^ i := by
      rw [Nat.one_shiftLeft, word_eq_two_pow]
      exact Nat.mod_eq_of_lt (Nat.pow_lt_pow_right (by decide) (by omega))
    simp only [roundup_loop, hb]
    split
    · rename_i hle
      refine ⟨⟨i, rfl⟩, hle, ?_⟩
      intro j hj
      have hij : i ≤ j := by
        by_contra hlt
        have := hlow j (by omega)
        omega
      exact Nat.pow_le_pow_right (by decide) hij
    · rename_i hnle
      refine ih (i + 1) (2 ^ i) (by omega) ?_
      intro j hj
      by_cases hji : j = i
      · subst hji
        omega
      · exact hlow j (by omega)

theorem roundup_pow_of_two_least (x : Nat) (hx : x ≤ 2 ^ 31) :
    least_pow2_ge x (roundup_pow_of_two x) :=
  roundup_loop_least x hx 32 0 0 rfl (fun j hj => absurd hj (Nat.not_lt_zero j))

/-- C16: for every requested size `s` (a `uint32_t`): if `s ≤ 2^31`, `kfifo_malloc` with both
allocations succeeding returns a fifo with `in = out = 0` whose size is the least power of
two that is at least `s`, which is `s` itself when `s` is a power of two, and the fifo is
well formed; if `s > 2^31` it returns `NULL` whatever the allocations do;
`roundup_pow_of_two s` is the least power of two that is at least `s` for `s ≤ 2^31`; and
`is_power_of_2 s` holds exactly when `s = 2^k` for some `k < 32`, so not for 0. -/
theorem kfifo_malloc_size (s : Nat) (mem : Mem) (hs : s < WORD) :
    (s ≤ 2 ^ 31 →
      kfifo_malloc s true true mem =
          some { buffer := mem
                 size := if is_power_of_2 s = true then s else roundup_pow_of_two s
                 in_ := 0
                 out := 0 } ∧
        least_pow2_ge s (if is_power_of_2 s = true then s else roundup_pow_of_two s) ∧
        kfifo_ok { buffer := mem
                   size := if is_power_of_2 s = true then s else roundup_pow_of_two s
                   in_ := 0
                   out := 0 }) ∧
    (2 ^ 31 < s → ∀ fifo_ok buffer_ok, kfifo_malloc s fifo_ok buffer_ok mem = none) ∧
    (s ≤ 2 ^ 31 → least_pow2_ge s (roundup_pow_of_two s)) ∧
    (is_power_of_2 s = true ↔ ∃ k, k < 32 ∧ s = 2 ^ k) ∧
    is_power_of_2 0 = false := by
  have hiff := is_power_of_2_iff s hs
  refine ⟨?_, ?_, roundup_pow_of_two_least s, hiff, by decide⟩
  · intro hle
    have hleast : least_pow2_ge s (if is_power_of_2 s = true then s else roundup_pow_of_two s) := by
      split
      · rename_i hp
        obtain ⟨k, -, hk⟩ := hiff.1 hp
        exact ⟨⟨k, hk⟩, Nat.le_refl s, fun j hj => hj⟩
      · exact roundup_pow_of_two_least s hle
    refine ⟨?_, hleast, ?_⟩
    · have hnot : ¬ s > 2147483648 := by
        have : (2 : Nat) ^ 31 = 2147483648 := by norm_num
        omega
      cases hp : is_power_of_2 s <;> simp [kfifo_malloc, hp, hnot]
    · obtain ⟨⟨k, hk⟩, -, hmin⟩ := hleast
      have hr := hmin 31 hle
      rw [hk] at hr
      have hk31 : k ≤ 31 := (Nat.pow_le_pow_iff_right (by decide)).1 hr
      refine ⟨⟨k, by omega, hk⟩, show 0 < WORD by decide, show 0 < WORD by decide, ?_⟩
      simp [kfifo_len, usub]
  · intro hgt fifo_ok buffer_ok
    have hnp : is_power_of_2 s = false := by
      cases hp : is_power_of_2 s
      · rfl
      · obtain ⟨k, hk, hsk⟩ := hiff.1 hp
        have : (2 : Nat) ^ k ≤ 2 ^ 31 := Nat.pow_le_pow_right (by decide) (by omega)
        omega
    have hbig : s > 2147483648 := by
      have : (2 : Nat) ^ 31 = 2147483648 := by norm_num
      omega
    cases fifo_ok <;> simp [kfifo_malloc, hnp, hbig]

/-- C16, on the sizes 64 (that of `kfifo_test`), 100, 0 and 2^31 + 1: 64 is kept, 100
becomes 128, 0 becomes 1, and 2^31 + 1 is refused. -/
theorem kfifo_malloc_size_witness :
    kfifo_malloc 64 true true zero_mem = some ⟨zero_mem, 64, 0, 0⟩ ∧
    (kfifo_malloc 100 true true zero_mem).map (fun f => f.size) = some 128 ∧
    (kfifo_malloc 0 true true zero_mem).map (fun f => f.size) = some 1 ∧
    kfifo_malloc 2147483649 true true zero_mem = none :=
  ⟨((kfifo_malloc_size 64 zero_mem (by decide)).1 (by decide)).1, by decide, by decide,
    (kfifo_malloc_size 2147483649 zero_mem (by decide)).2.1 (by decide) true true⟩

/-! ## The consistency of indices and length -/

theorem store_inv_iff_ring_ok (nb : net_buffer) : store_inv nb ↔ ring_ok nb := by
  unfold store_inv ring_ok
  constructor
  · rintro ⟨h1, h2, h3, h4⟩
    exact ⟨h1, h2, h3, by rw [wrap_eq_mod (by omega), h4]⟩
  · rintro ⟨h1, h2, h3, h4⟩
    exact ⟨h1, h2, h3, by rw [h4, wrap_eq_mod (by omega)]⟩

theorem contents_get (nb : net_buffer) (i : Nat) (h : i < nb.data_length) :
    (contents nb)[i]? = some (nb.buffer_data (wrap nb.size (nb.read_index + i))) := by
  unfold contents
  rw [List.getElem?_map, List.getElem?_range h]
  rfl

/-- C17, refuted as stated: after `net_buf_init(0)` the predicate does not hold, since
`read_index = 0` is not below `size = 0`. -/
theorem store_inv_fails_at_capacity_zero :
    (net_buf_init 0 zero_mem).read_index = 0 ∧ (net_buf_init 0 zero_mem).size = 0 ∧
    ¬ store_inv (net_buf_init 0 zero_mem) := by
  refine ⟨rfl, rfl, ?_⟩
  intro h
  exact absurd h.1 (by decide)

/-- C17 (amended): for every capacity `size > 0` the predicate `read_index < size`,
`save_index < size`, `data_length ≤ size`, `(read_index + data_length) mod size = save_index`
holds after `net_buf_init(size)`; it is preserved (for `size` a 32-bit word) by the worker's
write of a chunk that fits in the free space, by every call of `net_buf_read`, by the resets
at the start and at the end of a session, and by `net_buf_start_job`; and a write of a chunk
that fits changes none of the `data_length` bytes that are not yet read. -/
theorem store_inv_preserved :
    (∀ (size : Nat) (mem : Mem), 0 < size → store_inv (net_buf_init size mem)) ∧
    (∀ (nb : net_buffer) (ptr : Mem) (len : Nat), nb.size < WORD → store_inv nb →
      nb.data_length + len ≤ nb.size →
      store_inv (worker_write nb ptr len) ∧
      ∀ i, i < nb.data_length →
        (worker_write nb ptr len).buffer_data ((nb.read_index + i) % nb.size) =
          nb.buffer_data ((nb.read_index + i) % nb.size)) ∧
    (∀ (nb : net_buffer) (buffer : Mem) (length : Nat) (sem_ok : Bool), nb.size < WORD →
      store_inv nb → store_inv (net_buf_read nb buffer length sem_ok).nb) ∧
    (∀ (nb : net_buffer), store_inv nb →
      store_inv (do_stop_reset nb) ∧ store_inv (net_buf_do_stop nb)) ∧
    (∀ (nb : net_buffer) (mq : List net_buffer_job) (job : net_buffer_job), store_inv nb →
      store_inv (net_buf_start_job nb mq job).2.1) := by
  refine ⟨?_, ?_, ?_, ?_, ?_⟩
  · intro size mem h
    exact ⟨h, h, Nat.zero_le _, Nat.zero_mod _⟩
  · intro nb ptr len hW hinv hfit
    have hr := (store_inv_iff_ring_ok nb).1 hinv
    obtain ⟨hr', hc⟩ := worker_write_contents nb ptr len hW hr hfit
    refine ⟨(store_inv_iff_ring_ok _).2 hr', ?_⟩
    intro i hi
    have hlen : (worker_write nb ptr len).data_length = nb.data_length + len := by
      simp only [worker_write, add_length, copy_in_data_length]
      exact uadd_of_lt (by omega)
    have hfr : (worker_write nb ptr len).size = nb.size ∧
        (worker_write nb ptr len).read_index = nb.read_index := by
      simp [worker_write]
    have h1 := contents_get (worker_write nb ptr len) i (by omega)
    rw [hfr.1, hfr.2] at h1
    have h2 : (contents nb ++ bytes ptr len)[i]? =
        some (nb.buffer_data (wrap nb.size (nb.read_index + i))) := by
      rw [List.getElem?_append_left (by rw [contents_length]; exact hi)]
      exact contents_get nb i hi
    rw [hc, h2] at h1
    have hw : wrap nb.size (nb.read_index + i) = (nb.read_index + i) % nb.size :=
      wrap_eq_mod (by have := hinv.1; have := hinv.2.2.1; omega)
    rw [hw] at h1
    exact (Option.some.inj h1).symm
  · intro nb buffer length sem_ok hW hinv
    exact (store_inv_iff_ring_ok _).2
      (net_buf_read_contents nb buffer length sem_ok hW ((store_inv_iff_ring_ok nb).1 hinv)).1
  · intro nb hinv
    have hpos : 0 < nb.size := by have := hinv.1; omega
    constructor
    · exact ⟨hpos, hpos, Nat.zero_le _, Nat.zero_mod _⟩
    · have hs : (net_buf_do_stop nb).size = nb.size := (net_buf_do_stop_fields nb).2.2.2.2.2.2.2.2
      obtain ⟨-, h2, h3, h4, -⟩ := net_buf_do_stop_fields nb
      unfold store_inv
      rw [h2, h3, h4, hs]
      exact ⟨hpos, hpos, Nat.zero_le _, Nat.zero_mod _⟩
  · intro nb mq job hinv
    unfold net_buf_start_job
    split
    · exact hinv
    · exact hinv

/-- C17 (amended), at capacity 8: the predicate holds after `net_buf_init(8)` and after a
write of 6 bytes. -/
theorem store_inv_preserved_witness :
    store_inv nb8 ∧ store_inv (worker_write nb8 (ramp_from 0) 6) :=
  ⟨store_inv_preserved.1 8 zero_mem (by decide),
    (store_inv_preserved.2.1 nb8 (ramp_from 0) 6 (by decide)
      (store_inv_preserved.1 8 zero_mem (by decide)) (by decide)).1⟩

/-! ## A stop that is lost, and a worker and a reader that wait for each other -/

/-- C18, a stop issued while the worker is in `fetch`: at capacity 1000, with 1000 bytes
stored, the stop sets the state to Stopping; the worker's next chunk does not fit, and its
statement `_netbuf.stat = NETBUF_STAT_SUSPEND` (line 239) takes the state from Stopping to
Suspended; the worker then blocks on `wait_resume`, which the stop did not release, with
`close` not called; a read of 250 bytes sets the state back to Buffering. -/
theorem stop_overwritten_by_suspend :
    (run stop_during_fetch_run (sys_init 1000 zero_mem)).map
        (fun s => (s.netbuf.stat, s.worker.pc)) = some (NETBUF_STAT_STOPPING, .suspend) ∧
    (run (stop_during_fetch_run ++ [.worker (chunk 1000)]) (sys_init 1000 zero_mem)).map
        (fun s => (s.netbuf.stat, s.worker.pc, s.netbuf.wait_resume, s.closed)) =
      some (NETBUF_STAT_SUSPEND, .take_resume, 0, []) ∧
    ((run (stop_during_fetch_run ++ [.worker (chunk 1000)]) (sys_init 1000 zero_mem)).bind
        (worker_step (chunk 1000))).isNone = true ∧
    (run (stop_during_fetch_run ++ [.worker (chunk 1000)] ++ read_250)
        (sys_init 1000 zero_mem)).map
        (fun s => (s.netbuf.stat, s.closed)) = some (NETBUF_STAT_BUFFERING, []) := by
  decide

/-- C19, at capacity 1000 with chunks of 400 bytes and no stop: the reader waits from the
start; after two chunks `data_length = 800` is below `ready_wm = 900`, so the reader is
not released; the third chunk does not fit, so the worker sets the state to Suspended and
blocks on `wait_resume`. In the state reached the worker and the reader are both blocked,
the waiting flag is set and neither semaphore has a release pending. -/
theorem worker_and_reader_both_blocked :
    ∃ s, Reachable 1000 zero_mem s ∧ run both_wait_run (sys_init 1000 zero_mem) = some s ∧
      s.netbuf.stat = NETBUF_STAT_SUSPEND ∧ s.worker.pc = .take_resume ∧
      s.reader.pc = .take_ready ∧ s.netbuf.is_wait_ready = true ∧
      s.netbuf.wait_ready = 0 ∧ s.netbuf.wait_resume = 0 ∧
      s.netbuf.data_length = 800 ∧ s.netbuf.ready_wm = 900 ∧
      (∀ e, e.sem_ok = true → worker_step e s = none) ∧ reader_step true s = none := by
  have h : (run both_wait_run (sys_init 1000 zero_mem)).map
      (fun s => (s.netbuf.stat, s.worker.pc, s.reader.pc, s.netbuf.is_wait_ready,
        s.netbuf.wait_ready, s.netbuf.wait_resume)) =
      some (NETBUF_STAT_SUSPEND, .take_resume, .take_ready, true, 0, 0) := by decide
  have h' : (run both_wait_run (sys_init 1000 zero_mem)).map
      (fun s => (s.netbuf.data_length, s.netbuf.ready_wm)) = some (800, 900) := by decide
  obtain ⟨s, hs, hf⟩ := Option.map_eq_some'.1 h
  obtain ⟨s', hs', hf'⟩ := Option.map_eq_some'.1 h'
  rw [hs] at hs'
  cases hs'
  simp only [Prod.mk.injEq] at hf hf'
  obtain ⟨h1, h2, h3, h4, h5, h6⟩ := hf
  refine ⟨s, reachable_of_run _ Reachable.init hs, hs, h1, h2, h3, h4, h5, h6, hf'.1, hf'.2,
    ?_, ?_⟩
  · intro e he
    simp [worker_step, h2, he, h6]
  · simp [reader_step, h3, h5]

/-- C20: in every state reachable from `net_buf_init` by any interleaving of the control
calls, the worker's steps and the reader's steps, the mailbox holds at most one job, and at
most one accepted job in all is in the mailbox or on its way to it; so every `rt_mq_send` of
`net_buf_start_job` finds the mailbox empty and enqueues its job, and a whole
`net_buf_start_job` that returns 0 leaves exactly its job in the mailbox. -/
theorem mailbox_at_most_one (size : Nat) (mem : Mem) (s : Sys) (h : Reachable size mem s) :
    s.netbuf_mq.length ≤ 1 ∧ s.netbuf_mq.length + s.sending.length ≤ 1 ∧
    s.netbuf_mq.length < NETBUF_MQ_SLOTS ∧
    (∀ (i : Nat) (job : net_buffer_job), s.sending.get? i = some job →
      s.netbuf_mq = [] ∧
      start_send i s = some { s with netbuf_mq := [job], sending := s.sending.eraseIdx i }) ∧
    (∀ (job : net_buffer_job), (net_buf_start_job s.netbuf s.netbuf_mq job).1 = 0 →
      (net_buf_start_job s.netbuf s.netbuf_mq job).2.2 = [job]) := by
  obtain ⟨h1, h2, -⟩ := mailbox_inv_reachable h
  refine ⟨by omega, h1, by show _ < 4; omega, ?_, ?_⟩
  · intro i job hget
    have hi : i < s.sending.length := by
      rw [List.get?_eq_some] at hget
      exact hget.1
    have hmq : s.netbuf_mq = [] := List.eq_nil_of_length_eq_zero (by omega)
    refine ⟨hmq, ?_⟩
    unfold start_send
    rw [hget]
    simp [hmq, rt_mq_send]
  · intro job hret
    by_cases hst : s.netbuf.stat = NETBUF_STAT_STOPPED
    · have h0 : s.netbuf_mq.length + s.sending.length = 0 := by
        by_contra hne
        exact (h2 (by omega)).1 hst
      have hmq : s.netbuf_mq = [] := List.eq_nil_of_length_eq_zero (by omega)
      simp [net_buf_start_job, hst, hmq, rt_mq_send]
    · simp [net_buf_start_job, hst] at hret

theorem run_reaches_sys_started :
    run [.start_enter job1, .start_send 0] (sys_init 1000 zero_mem) = some sys_started := by
  rfl

/-- C20, at `sys_started`, the state reached from `net_buf_init(1000)` by one accepted
start: the mailbox holds one job, `job1`. -/
theorem mailbox_at_most_one_witness :
    sys_started.netbuf_mq = [job1] ∧ sys_started.netbuf_mq.length ≤ 1 ∧
    sys_started.netbuf_mq.length + sys_started.sending.length ≤ 1 :=
  ⟨rfl,
    (mailbox_at_most_one 1000 zero_mem sys_started
      (reachable_of_run _ Reachable.init run_reaches_sys_started)).1,
    (mailbox_at_most_one 1000 zero_mem sys_started
      (reachable_of_run _ Reachable.init run_reaches_sys_started)).2.1⟩

/-- The steps that leave the state Stopping: the worker's line 183, which sets Stopped, and
the worker's line 239, which sets Suspended; no step of the reader or of the control calls
changes a state that is Stopping. -/
theorem stopping_left_only_by_worker (l : Label) (s s' : Sys) (hstep : step l s = some s')
    (hs : s.netbuf.stat = NETBUF_STAT_STOPPING) :
    s'.netbuf.stat = NETBUF_STAT_STOPPING ∨
    ((∃ e, l = .worker e) ∧ s.worker.pc = .stop_stat ∧ s'.netbuf.stat = NETBUF_STAT_STOPPED) ∨
    ((∃ e, l = .worker e) ∧ s.worker.pc = .suspend ∧ s'.netbuf.stat = NETBUF_STAT_SUSPEND) := by
  cases l with
  | start_enter job =>
    simp only [step, start_enter, Option.some.injEq] at hstep
    subst hstep
    simp [hs]
  | start_send i =>
    simp only [step, start_send] at hstep
    split at hstep
    · simp at hstep
    · simp only [Option.some.injEq] at hstep
      subst hstep
      exact Or.inl hs
  | stop =>
    simp only [step, Option.some.injEq] at hstep
    subst hstep
    simp [net_buf_stop_job, hs]
  | read_call buffer length =>
    simp only [step, reader_call] at hstep
    split at hstep <;> (try split at hstep) <;>
      simp only [Option.some.injEq, reduceCtorEq] at hstep <;>
      (try subst hstep) <;> simp_all
  | reader ok =>
    simp only [step, reader_step] at hstep
    split at hstep <;> (try split at hstep) <;> (try split at hstep) <;>
      simp only [Option.some.injEq, reduceCtorEq] at hstep <;>
      (try subst hstep) <;> simp_all [net_buf_read_update]
  | worker e =>
    simp only [step, worker_step] at hstep
    split at hstep <;> (try split at hstep) <;> (try split at hstep) <;>
      simp only [Option.some.injEq, reduceCtorEq] at hstep <;>
      (try subst hstep) <;> simp_all [do_stop_stat]

end NetBuf
